import Mathlib

/-!
Verification development for the sales-file ingestion pipeline
(`server.js` and its variants).  The definitions below are a shallow
embedding, translated function by function from the JavaScript source
(`src/unnamed/part_000` for the pipeline, `src/unnamed/part_001` for the
customer-name alias mapping).  Strings are modelled as Lean `String`
(lists of characters); JS numbers are modelled as `Int` (for `parseInt`
results) and `ℚ` (for `parseFloat` results and money amounts); fallible
steps return `Option`/`Except`.  Console logging in the source is pure
diagnostics and is dropped.  `Date`-valued fields (`order_date`) are kept
as the raw input text because no property below concerns date parsing,
and wall-clock reads (`Date.now()`) are passed in as an explicit
parameter.
-/

namespace StockistModel

/-! ## Character classes

The source relies on JavaScript regular-expression character classes.
Each class is modelled as a boolean predicate on `Char`, written against
the code point so that facts about the classes reduce to arithmetic. -/

/-- The JavaScript whitespace set: the class `\s` of JS regular
expressions, which is also the set removed by `String.prototype.trim`
(tab through carriage return, space, NBSP, U+1680, U+2000–U+200A,
U+2028, U+2029, U+202F, U+205F, U+3000, U+FEFF). -/
def jsWs (c : Char) : Bool :=
  let n := c.toNat
  n == 32 || (9 ≤ n && n ≤ 13) || n == 160 || n == 5760 ||
  (8192 ≤ n && n ≤ 8202) || n == 8232 || n == 8233 || n == 8239 ||
  n == 8287 || n == 12288 || n == 65279

/-- The regex class `\d` = `[0-9]`. -/
def isDigitC (c : Char) : Bool :=
  48 ≤ c.toNat && c.toNat ≤ 57

/-- The regex class `[a-zA-Z]`. -/
def isAsciiLetterC (c : Char) : Bool :=
  (65 ≤ c.toNat && c.toNat ≤ 90) || (97 ≤ c.toNat && c.toNat ≤ 122)

/-- The regex class `[a-zA-Z0-9]`, used by `createLineIdentifier`. -/
def isAlnumC (c : Char) : Bool :=
  isDigitC c || isAsciiLetterC c

/-- ASCII lower-casing, the effect of JS `toLowerCase` on the ASCII
range (all strings compared case-insensitively by the source are
ASCII).  Written as a table so that it reduces without `Char.ofNat`. -/
def toLowerC (c : Char) : Char :=
  match c with
  | 'A' => 'a' | 'B' => 'b' | 'C' => 'c' | 'D' => 'd' | 'E' => 'e'
  | 'F' => 'f' | 'G' => 'g' | 'H' => 'h' | 'I' => 'i' | 'J' => 'j'
  | 'K' => 'k' | 'L' => 'l' | 'M' => 'm' | 'N' => 'n' | 'O' => 'o'
  | 'P' => 'p' | 'Q' => 'q' | 'R' => 'r' | 'S' => 's' | 'T' => 't'
  | 'U' => 'u' | 'V' => 'v' | 'W' => 'w' | 'X' => 'x' | 'Y' => 'y'
  | 'Z' => 'z'
  | c => c

/-- ASCII upper-casing, the effect of JS `toUpperCase` on the ASCII
range. -/
def toUpperC (c : Char) : Char :=
  match c with
  | 'a' => 'A' | 'b' => 'B' | 'c' => 'C' | 'd' => 'D' | 'e' => 'E'
  | 'f' => 'F' | 'g' => 'G' | 'h' => 'H' | 'i' => 'I' | 'j' => 'J'
  | 'k' => 'K' | 'l' => 'L' | 'm' => 'M' | 'n' => 'N' | 'o' => 'O'
  | 'p' => 'P' | 'q' => 'Q' | 'r' => 'R' | 's' => 'S' | 't' => 'T'
  | 'u' => 'U' | 'v' => 'V' | 'w' => 'W' | 'x' => 'X' | 'y' => 'Y'
  | 'z' => 'Z'
  | c => c

/-- The control-character class `[\x00-\x1F\x7F-\x9F]` removed by
`cleanCustomerName`. -/
def isCtrlC (c : Char) : Bool :=
  c.toNat ≤ 31 || (127 ≤ c.toNat && c.toNat ≤ 159)

/-- Curly double quotes U+201C / U+201D, normalized to `"` by
`cleanCustomerName`. -/
def isCurlyDouble (c : Char) : Bool :=
  c.toNat == 8220 || c.toNat == 8221

/-- Curly single quotes U+2018 / U+2019, normalized to an ASCII
apostrophe by `cleanCustomerName`. -/
def isCurlySingle (c : Char) : Bool :=
  c.toNat == 8216 || c.toNat == 8217

/-- The class `[ -​    　]` of space
variants replaced with an ASCII space by `cleanCustomerName`. -/
def isUniSpaceC (c : Char) : Bool :=
  (8192 ≤ c.toNat && c.toNat ≤ 8203) || c.toNat == 8232 ||
  c.toNat == 8233 || c.toNat == 8239 || c.toNat == 8287 ||
  c.toNat == 12288

/-- The ASCII apostrophe character. -/
def apostC : Char := '\''

/-! ## String utilities -/

/-- JS `String.prototype.trim` on a character list. -/
def jsTrim (s : List Char) : List Char :=
  ((s.dropWhile jsWs).reverse.dropWhile jsWs).reverse

/-- JS `String.prototype.trim` on a `String`. -/
def jsTrimS (s : String) : String :=
  String.mk (jsTrim s.data)

/-- Truthiness of a JS string value: the empty string (and a missing
value, which we model as the empty string) is falsy. -/
def truthy (s : String) : Bool := s ≠ ""

/-- Global fixed-substring replacement, the model of
`String.prototype.replace` with a global literal pattern.  The
replacement text is not rescanned.  `fuel` bounds the recursion; every
step consumes at least one character, so `fuel = s.length` computes the
full replacement. -/
def replaceAll (pat repl : List Char) : Nat → List Char → List Char
  | 0, s => s
  | _, [] => []
  | fuel + 1, c :: rest =>
    if pat.isPrefixOf (c :: rest) && !pat.isEmpty then
      repl ++ replaceAll pat repl fuel (List.drop (pat.length - 1) rest)
    else
      c :: replaceAll pat repl fuel rest

/-- `replaceAll` with the fuel set to the length of the input. -/
def runReplace (pat : String) (repl : List Char) (s : List Char) : List Char :=
  replaceAll pat.data repl s.length s

/-- Removal of numeric HTML entities: the global replacement of
`&#\d+;` with the empty string in `cleanCustomerName`. -/
def removeNumEnt : Nat → List Char → List Char
  | 0, s => s
  | _, [] => []
  | fuel + 1, c :: rest =>
    if c = '&' then
      match rest with
      | '#' :: r2 =>
        let ds := r2.takeWhile isDigitC
        if !ds.isEmpty && (r2.drop ds.length).head? == some ';' then
          removeNumEnt fuel (List.drop (ds.length + 1) r2)
        else '&' :: removeNumEnt fuel rest
      | _ => '&' :: removeNumEnt fuel rest
    else c :: removeNumEnt fuel rest

/-- Replacement of curly double quotes with `"`. -/
def mapCurlyD (s : List Char) : List Char :=
  s.map (fun c => if isCurlyDouble c then '"' else c)

/-- Replacement of curly single quotes with an ASCII apostrophe. -/
def mapCurlyS (s : List Char) : List Char :=
  s.map (fun c => if isCurlySingle c then apostC else c)

/-- The global replacement of `\s+` with a single space.  The boolean
argument records whether the previous character was whitespace (so that
only the first character of a run is emitted). -/
def collapseWsGo : Bool → List Char → List Char
  | _, [] => []
  | prevWs, c :: rest =>
    if jsWs c then
      if prevWs then collapseWsGo true rest
      else ' ' :: collapseWsGo true rest
    else c :: collapseWsGo false rest

/-- If the name contains a comma, keep only the (trimmed) part before
the first comma: `cleaned.split(...)[0].trim()` in the source. -/
def commaSplit (s : List Char) : List Char :=
  if s.contains ',' then jsTrim (s.takeWhile (fun c => !(c == ','))) else s

/-- Case-insensitive literal prefix match; on success returns the rest
of the string after the literal. -/
def ciPrefixDrop (alt : List Char) (s : List Char) : Option (List Char) :=
  match alt, s with
  | [], rest => some rest
  | _ :: _, [] => none
  | a :: as, b :: bs =>
    if toLowerC b = toLowerC a then ciPrefixDrop as bs else none

/-- One alternative of the care-of prefix regex: the literal must match
case-insensitively and be followed by at least one whitespace character;
the literal and the whole whitespace run are dropped. -/
def tryCareOf (alt : List Char) (s : List Char) : Option (List Char) :=
  match ciPrefixDrop alt s with
  | some rest =>
    match rest with
    | r :: _ => if jsWs r then some (rest.dropWhile jsWs) else none
    | [] => none
  | none => none

/-- The replacement of `^(c\/o|care of|attn:|attention:)\s+` (case
insensitive) with the empty string; alternatives are tried left to
right. -/
def stripCareOf (s : List Char) : List Char :=
  match tryCareOf "c/o".data s with
  | some r => r
  | none =>
    match tryCareOf "care of".data s with
    | some r => r
    | none =>
      match tryCareOf "attn:".data s with
      | some r => r
      | none =>
        match tryCareOf "attention:".data s with
        | some r => r
        | none => s

/-- The replacement of `^\d+[a-zA-Z]?\s+` with the empty string ("remove
leading numbers that might be addresses").  The digit run is maximal;
the optional letter is taken when present; the whitespace run after it
is required and consumed entirely. -/
def stripLeadNum (s : List Char) : List Char :=
  let ds := s.takeWhile isDigitC
  if ds.isEmpty then s
  else
    match s.drop ds.length with
    | c :: r2 =>
      if isAsciiLetterC c then
        match r2 with
        | d :: _ => if jsWs d then r2.dropWhile jsWs else s
        | [] => s
      else if jsWs c then (c :: r2).dropWhile jsWs else s
    | [] => s

/-- The replacement of `\s+\d+\s*$` with the empty string ("remove
trailing numbers").  Matching from the right: an optional trailing
whitespace run, a nonempty digit run, and a required whitespace run
before it are removed. -/
def stripTrailNum (s : List Char) : List Char :=
  let r1 := s.reverse.dropWhile jsWs
  let ds := r1.takeWhile isDigitC
  if ds.isEmpty then s
  else
    let r2 := r1.drop ds.length
    if (r2.takeWhile jsWs).isEmpty then s else (r2.dropWhile jsWs).reverse

/-- The cleaning chain of `cleanCustomerName` (everything before the
validation checks), in source order: trim; decode the five named HTML
entities; drop numeric entities; normalize curly quotes; strip control
characters; turn Unicode space variants into spaces; collapse whitespace
runs; trim; keep the part before the first comma; strip a care-of
prefix; strip a leading number token; strip a trailing number.  The
source's replacement of trailing legal-entity suffixes maps every match
to itself and is the identity, so it contributes nothing here. -/
def cleanPipeline (s : List Char) : List Char :=
  let s1 := jsTrim s
  let s2 := runReplace "&amp;" "&".data s1
  let s3 := runReplace "&quot;" "\"".data s2
  let s4 := runReplace "&apos;" [apostC] s3
  let s5 := runReplace "&lt;" "<".data s4
  let s6 := runReplace "&gt;" ">".data s5
  let s7 := removeNumEnt s6.length s6
  let s8 := mapCurlyD s7
  let s9 := mapCurlyS s8
  let s10 := s9.filter (fun c => !isCtrlC c)
  let s11 := s10.map (fun c => if isUniSpaceC c then ' ' else c)
  let s12 := collapseWsGo false s11
  let s13 := jsTrim s12
  let s14 := commaSplit s13
  let s15 := stripCareOf s14
  let s16 := stripLeadNum s15
  let s17 := stripTrailNum s16
  jsTrim s17

/-- The generic placeholder names rejected by `cleanCustomerName`. -/
def genericNames : List String :=
  ["customer", "guest", "user", "test", "admin", "default"]

/-- ASCII lower-casing of a character list. -/
def toLowerL (s : List Char) : List Char := s.map toLowerC

/-- The test `/^\d+\s/` ("looks like an address"). -/
def startsDigitWs (s : List Char) : Bool :=
  let ds := s.takeWhile isDigitC
  !ds.isEmpty &&
    (match (s.drop ds.length).head? with
     | some c => jsWs c
     | none => false)

/-- The test `/[a-zA-Z]/`. -/
def hasLetter (s : List Char) : Bool := s.any isAsciiLetterC

/-- The validation checks at the end of `cleanCustomerName`: reject
names shorter than two characters, names that look like an address
(digits followed by whitespace), names without a letter, and generic
placeholder names. -/
def validateName (s : List Char) : Option String :=
  if s.length < 2 then none
  else if startsDigitWs s then none
  else if !hasLetter s then none
  else if genericNames.contains (String.mk (toLowerL s)) then none
  else some (String.mk s)

/-- `cleanCustomerName(rawName, rowNumber, filename)` from the source
(the row number and filename feed only the log messages and are
dropped).  A missing or empty raw name is rejected; otherwise the
cleaning chain runs and the result is validated. -/
def cleanCustomerName (rawName : String) : Option String :=
  if rawName = "" then none
  else validateName (cleanPipeline rawName.data)

/-! ## JS number parsing and printing -/

/-- Hexadecimal digit class for `parseInt`'s automatic `0x` radix. -/
def isHexC (c : Char) : Bool :=
  isDigitC c || (97 ≤ c.toNat && c.toNat ≤ 102) || (65 ≤ c.toNat && c.toNat ≤ 70)

/-- Value of a decimal digit character. -/
def digitVal (c : Char) : Nat := c.toNat - 48

/-- Value of a hexadecimal digit character. -/
def hexVal (c : Char) : Nat :=
  if isDigitC c then c.toNat - 48
  else if 97 ≤ c.toNat then c.toNat - 87
  else c.toNat - 55

/-- Numeric value of a list of decimal digits. -/
def natFromDigits (ds : List Char) : Nat :=
  ds.foldl (fun acc c => acc * 10 + digitVal c) 0

/-- Numeric value of a list of hexadecimal digits. -/
def natFromHexDigits (ds : List Char) : Nat :=
  ds.foldl (fun acc c => acc * 16 + hexVal c) 0

/-- The unsigned part of `parseInt`: either a `0x`/`0X` hexadecimal
literal or a run of decimal digits; `none` when no digit is found. -/
def jsParseNatCore (l : List Char) : Option Nat :=
  match l with
  | '0' :: x :: r3 =>
    if x = 'x' ∨ x = 'X' then
      let hs := r3.takeWhile isHexC
      if hs.isEmpty then none else some (natFromHexDigits hs)
    else some (natFromDigits (l.takeWhile isDigitC))
  | _ =>
    let ds := l.takeWhile isDigitC
    if ds.isEmpty then none else some (natFromDigits ds)

/-- `parseInt` after whitespace skipping: an optional sign, then the
unsigned part. -/
def jsParseIntCore (l : List Char) : Option Int :=
  match l with
  | '-' :: r => (jsParseNatCore r).map (fun n : Nat => -(n : Int))
  | '+' :: r => (jsParseNatCore r).map (fun n : Nat => (n : Int))
  | _ => (jsParseNatCore l).map (fun n : Nat => (n : Int))

/-- JS `parseInt(s)` with the default radix: skip leading whitespace,
an optional sign, then either a `0x`/`0X` hexadecimal literal or a run
of decimal digits; `none` models `NaN` (no digits found). -/
def jsParseInt (s : String) : Option Int :=
  jsParseIntCore (s.data.dropWhile jsWs)

/-- The idiom `parseInt(v) || 0` used for quantities: an unparseable
value yields 0 (`NaN || 0`), and a parsed 0 also yields 0. -/
def jsParseIntOr0 (s : String) : Int :=
  match jsParseInt s with
  | some n => n
  | none => 0

/-- JS `parseFloat(s)`: skip leading whitespace, optional sign, then
the longest decimal-literal prefix — integer digits, an optional
fraction, and an optional well-formed exponent.  `none` models `NaN`.
The literals `Infinity`/`-Infinity` fall outside `ℚ` and are not
modelled; no claim concerns them. -/
def jsParseFloat (s : String) : Option ℚ :=
  let l := s.data.dropWhile jsWs
  let sign : ℚ := match l.head? with
    | some '-' => -1
    | _ => 1
  let l2 := match l with
    | '-' :: r => r
    | '+' :: r => r
    | _ => l
  let ip := l2.takeWhile isDigitC
  let l3 := l2.drop ip.length
  let fp := match l3 with
    | '.' :: r => r.takeWhile isDigitC
    | _ => []
  let l4 := match l3 with
    | '.' :: r => r.drop fp.length
    | _ => l3
  if ip.isEmpty ∧ fp.isEmpty then none
  else
    let mantissa : ℚ :=
      (natFromDigits ip : ℚ) + (natFromDigits fp : ℚ) / (10 : ℚ) ^ fp.length
    let expv : Int := match l4 with
      | e :: r =>
        if e = 'e' ∨ e = 'E' then
          let esign : Int := match r.head? with
            | some '-' => -1
            | _ => 1
          let r2 := match r with
            | '-' :: r3 => r3
            | '+' :: r3 => r3
            | _ => r
          let es := r2.takeWhile isDigitC
          if es.isEmpty then 0 else esign * (natFromDigits es : Nat)
        else 0
      | [] => 0
    some (sign * mantissa * (10 : ℚ) ^ expv)

/-- The idiom `parseFloat(v) || 0` used for prices and totals. -/
def jsParseFloatOr0 (s : String) : ℚ :=
  match jsParseFloat s with
  | some q => q
  | none => 0

/-- Decimal digit character (0 ≤ n ≤ 9). -/
def digitC : Nat → Char
  | 0 => '0'
  | 1 => '1'
  | 2 => '2'
  | 3 => '3'
  | 4 => '4'
  | 5 => '5'
  | 6 => '6'
  | 7 => '7'
  | 8 => '8'
  | 9 => '9'
  | _ => '0'

/-- Decimal digits of `n`, most significant first; `fuel` bounds the
recursion (`fuel = n + 1` always suffices). -/
def natReprAux : Nat → Nat → List Char
  | 0, _ => []
  | fuel + 1, n =>
    if n < 10 then [digitC n]
    else natReprAux fuel (n / 10) ++ [digitC (n % 10)]

/-- Decimal rendering of a natural number, as JS template interpolation
prints a non-negative integer. -/
def jsNatRepr (n : Nat) : String := String.mk (natReprAux (n + 1) n)

/-- Decimal rendering of an integer, as JS template interpolation
prints an integral number. -/
def jsIntRepr : Int → String
  | Int.ofNat n => jsNatRepr n
  | Int.negSucc m => "-" ++ jsNatRepr (m + 1)

/-- Rendering of a rational amount inside a template string.  JS prints
a float in shortest decimal form; exact float formatting is outside the
model, so integral values are printed as integers and non-integral
values canonically as numerator/denominator.  Only injectivity and the
absence of the join character matter to the properties below. -/
def jsRatRepr (q : ℚ) : String :=
  if q.den = 1 then jsIntRepr q.num
  else jsIntRepr q.num ++ "/" ++ jsNatRepr q.den

/-! ## Line identifier (`createLineIdentifier`) -/

/-- `(title || '').replace(..., '').toLowerCase()`: the title component
of the line identifier, stripped to alphanumerics and lower-cased. -/
def cleanIdTitle (title : String) : String :=
  String.mk ((title.data.filter isAlnumC).map toLowerC)

/-- `(ean || '').replace(..., '')`: the item-code component of the line
identifier, stripped to alphanumerics. -/
def cleanIdCode (ean : String) : String :=
  String.mk (ean.data.filter isAlnumC)

/-- `createLineIdentifier(orderRef, title, ean, quantity, total)`:
the five components joined with underscores. -/
def createLineIdentifier (orderRef title : String) (ean : Option String)
    (quantity : Int) (total : ℚ) : String :=
  orderRef ++ "_" ++ cleanIdTitle title ++ "_" ++ cleanIdCode (ean.getD "") ++
    "_" ++ jsIntRepr quantity ++ "_" ++ jsRatRepr total

/-! ## Normalized records -/

/-- The normalized record inserted into the `records` table.  The
`order_date` field keeps the raw text handed to `parseDate` (date
parsing defaults to the wall clock and is not the subject of any
property below). -/
structure NormRecord where
  order_date : String
  cus_no : Option String
  customer_name : String
  title : String
  book_ean : Option String
  quantity : Int
  total : ℚ
  country : String
  city : String
  order_reference : String
  line_identifier : String
  source_file : String
  source_row : Nat
  upload_batch_id : Nat
  data_type : String
deriving Repr, DecidableEq, Inhabited

/-- Result of a processing function: the candidate records plus the
unknown-customer tally. -/
structure ProcessResult where
  records : List NormRecord
  unknownCount : Nat
deriving Repr, DecidableEq

/-! ## Format A (Shopify CSV) processing -/

/-- A parsed CSV row: column label to raw text, as built by the upload
route (`row[header] = values[index] || ''`).  A missing column reads as
the empty string, which is also how JS `undefined` behaves in every
truthiness test the source performs on row fields. -/
abbrev Row := List (String × String)

/-- Field access `row[k]`; later bindings of a repeated header overwrite
earlier ones, so the last binding wins. -/
def rowGet (row : Row) (k : String) : String :=
  match row.reverse.find? (fun p => p.1 == k) with
  | some p => p.2
  | none => ""

/-- The per-order customer information accumulated by
`processShopifyData` (`customerInfo` in the source). -/
structure CustomerInfo where
  name : Option String
  company : Option String
  country : Option String
  city : Option String
  sourceRow : Nat
deriving Repr, DecidableEq

/-- An order group: customer info plus retained line items (each with
its `_sourceRow`). -/
structure OrderGroup where
  customerInfo : CustomerInfo
  lineItems : List (Row × Nat)
deriving Repr, DecidableEq

/-- The order-group map, keyed by order number.  JS `Map` preserves
insertion order, so it is modelled as an insertion-ordered association
list. -/
abbrev Groups := List (String × OrderGroup)

/-- `orderGroups.get(k)`. -/
def findGroup (gs : Groups) (k : String) : Option OrderGroup :=
  (gs.find? (fun p => p.1 == k)).map (fun p => p.2)

/-- `orderGroups.set(k, g)` for a key already present (updates in place,
keeping insertion order). -/
def updateGroup (gs : Groups) (k : String) (g : OrderGroup) : Groups :=
  gs.map (fun p => if p.1 == k then (p.1, g) else p)

/-- The customer-identity resolution step of `processShopifyData`: only
when neither a name nor a company has been resolved yet, try billing
company, shipping company, billing name, shipping name — branching on
field presence first, then cleaning; a company field that is present but
fails cleaning leaves this row without effect. -/
def resolveCustomer (ci : CustomerInfo) (row : Row) : CustomerInfo :=
  if ci.name.isNone && ci.company.isNone then
    if truthy (jsTrimS (rowGet row "Billing Company")) then
      match cleanCustomerName (jsTrimS (rowGet row "Billing Company")) with
      | some c => { ci with company := some c, name := some c }
      | none => ci
    else if truthy (jsTrimS (rowGet row "Shipping Company")) then
      match cleanCustomerName (jsTrimS (rowGet row "Shipping Company")) with
      | some c => { ci with company := some c, name := some c }
      | none => ci
    else if truthy (jsTrimS (rowGet row "Billing Name")) then
      match cleanCustomerName (jsTrimS (rowGet row "Billing Name")) with
      | some c => { ci with name := some c }
      | none => ci
    else if truthy (jsTrimS (rowGet row "Shipping Name")) then
      match cleanCustomerName (jsTrimS (rowGet row "Shipping Name")) with
      | some c => { ci with name := some c }
      | none => ci
    else ci
  else ci

/-- Country resolution: billing country then shipping country, first
non-blank wins, frozen once set. -/
def resolveCountry (ci : CustomerInfo) (row : Row) : CustomerInfo :=
  if ci.country.isNone then
    if truthy (jsTrimS (rowGet row "Billing Country")) then
      { ci with country := some (jsTrimS (rowGet row "Billing Country")) }
    else if truthy (jsTrimS (rowGet row "Shipping Country")) then
      { ci with country := some (jsTrimS (rowGet row "Shipping Country")) }
    else ci
  else ci

/-- City resolution: billing city then shipping city, first non-blank
wins, frozen once set. -/
def resolveCity (ci : CustomerInfo) (row : Row) : CustomerInfo :=
  if ci.city.isNone then
    if truthy (jsTrimS (rowGet row "Billing City")) then
      { ci with city := some (jsTrimS (rowGet row "Billing City")) }
    else if truthy (jsTrimS (rowGet row "Shipping City")) then
      { ci with city := some (jsTrimS (rowGet row "Shipping City")) }
    else ci
  else ci

/-- A freshly initialized order group, remembering the first row that
mentioned the order. -/
def freshGroup (rowNumber : Nat) : OrderGroup :=
  { customerInfo :=
      { name := none, company := none, country := none,
        city := none, sourceRow := rowNumber },
    lineItems := [] }

/-- Initialize the order group on first sight of its order number
(`if (!orderGroups.has(orderNumber)) orderGroups.set(...)`). -/
def ensureGroup (gs : Groups) (orderNumber : String) (rowNumber : Nat) : Groups :=
  if (findGroup gs orderNumber).isSome then gs
  else gs ++ [(orderNumber, freshGroup rowNumber)]

/-- The update applied to an order group by one row: resolve customer,
country and city, and retain the row as a line item when it carries both
a line-item name and a quantity. -/
def rowUpdateGroup (g : OrderGroup) (row : Row) (rowNumber : Nat) : OrderGroup :=
  { customerInfo :=
      resolveCity (resolveCountry (resolveCustomer g.customerInfo row) row) row,
    lineItems :=
      if truthy (rowGet row "Lineitem name") && truthy (rowGet row "Lineitem quantity")
      then g.lineItems ++ [(row, rowNumber)]
      else g.lineItems }

/-- The body of the row scan of `processShopifyData` (the `forEach`
over `rawData`), for the row at 0-based index `p.1`. -/
def shopifyGroupStep (gs : Groups) (p : Nat × Row) : Groups :=
  let rowNumber := p.1 + 2
  let row := p.2
  let orderNumber := rowGet row "Name"
  if !truthy orderNumber then gs
  else
    let gs1 := ensureGroup gs orderNumber rowNumber
    match findGroup gs1 orderNumber with
    | some g => updateGroup gs1 orderNumber (rowUpdateGroup g row rowNumber)
    | none => gs1

/-- Step 1 of `processShopifyData`: scan the rows in order, create a
group on first sight of an order number, resolve customer, country and
city on first sufficient evidence, and retain rows carrying both a
line-item name and a line-item quantity. -/
def buildOrderGroups (rawData : List Row) : Groups :=
  rawData.enum.foldl shopifyGroupStep []

/-- Step 2 of `processShopifyData`, per line item: quantity from
`parseInt || 0`, unit price from `parseFloat || 0`, total as price ×
quantity, SKU empty means null. -/
def shopifyRecordOfItem (orderNumber customerName country city filename : String)
    (uploadBatchId : Nat) (item : Row × Nat) : NormRecord :=
  let row := item.1
  let quantity : Int := jsParseIntOr0 (rowGet row "Lineitem quantity")
  let itemPrice : ℚ := jsParseFloatOr0 (rowGet row "Lineitem price")
  let totalPrice : ℚ := itemPrice * (quantity : ℚ)
  let title := if truthy (rowGet row "Lineitem name") then rowGet row "Lineitem name" else "Unknown Product"
  let ean : Option String :=
    if truthy (rowGet row "Lineitem sku") then some (rowGet row "Lineitem sku") else none
  { order_date := rowGet row "Created at",
    cus_no := none,
    customer_name := customerName,
    title := title,
    book_ean := ean,
    quantity := quantity,
    total := totalPrice,
    country := country,
    city := city,
    order_reference := orderNumber,
    line_identifier := createLineIdentifier orderNumber title ean quantity totalPrice,
    source_file := filename,
    source_row := item.2,
    upload_batch_id := uploadBatchId,
    data_type := "shopify" }

/-- The resolved display name of an order group: name, else company,
else the Unknown-Customer sentinel
(`order.customerInfo.name || order.customerInfo.company || ...`). -/
def groupDisplayName (g : OrderGroup) : String :=
  match g.customerInfo.name with
  | some n => n
  | none =>
    match g.customerInfo.company with
    | some c => c
    | none => "Unknown Customer"

/-- The per-group body of step 2 of `processShopifyData`: emit one
record per retained line item, all sharing the order's resolved
name, country and city; tally unknown customers per order. -/
def shopifyEmitStep (filename : String) (uploadBatchId : Nat)
    (acc : ProcessResult) (p : String × OrderGroup) : ProcessResult :=
  let g := p.2
  let customerName := groupDisplayName g
  let unknown := if customerName = "Unknown Customer" then 1 else 0
  let country := g.customerInfo.country.getD "Unknown"
  let city := g.customerInfo.city.getD "Unknown"
  { records := acc.records ++
      g.lineItems.map (shopifyRecordOfItem p.1 customerName country city filename uploadBatchId),
    unknownCount := acc.unknownCount + unknown }

/-- `processShopifyData(rawData, filename, uploadBatchId)`: group rows
by order number, then emit one record per retained line item. -/
def processShopifyData (rawData : List Row) (filename : String)
    (uploadBatchId : Nat) : ProcessResult :=
  (buildOrderGroups rawData).foldl (shopifyEmitStep filename uploadBatchId)
    { records := [], unknownCount := 0 }

/-! ## Format B (Gazelle Excel) processing -/

/-- A Gazelle row: the source reads `row[Object.keys(row)[i]]`, i.e. the
i-th *present* cell value in column order, so a row is modelled as the
ordered list of its present cell values. -/
abbrev GRow := List String

/-- `row[Object.keys(row)[i]]`; out of range reads as missing (empty). -/
def gIdx (row : GRow) (i : Nat) : String := (row.get? i).getD ""

/-- The per-row body of `processGazelleData` (the `forEach` over
`rawData`), for the row at 0-based index `p.1`. -/
def gazelleStep (filename : String) (uploadBatchId now : Nat)
    (acc : ProcessResult) (p : Nat × GRow) : ProcessResult :=
  let rowNumber := p.1 + 2
  let row := p.2
  if row.isEmpty then acc
  else
        let customerName := gIdx row 3
        let unknown :=
          if !truthy customerName || !truthy (jsTrimS customerName) then 1 else 0
        let invoiceNumber :=
          if truthy (gIdx row 4) then gIdx row 4
          else "INV_" ++ jsNatRepr p.1 ++ "_" ++ jsNatRepr now
        let title := if truthy (gIdx row 5) then gIdx row 5 else "Unknown"
        let ean : Option String :=
          if truthy (gIdx row 7) then some (gIdx row 7) else none
        let quantity := jsParseIntOr0 (gIdx row 8)
        let total := jsParseFloatOr0 (gIdx row 9)
        let record : NormRecord :=
          { order_date := gIdx row 0,
            cus_no := if truthy (gIdx row 2) then some (gIdx row 2) else none,
            customer_name := if truthy customerName then customerName else "Unknown",
            title := title,
            book_ean := ean,
            quantity := quantity,
            total := total,
            country := "Unknown",
            city := "Unknown",
            order_reference := invoiceNumber,
            line_identifier := createLineIdentifier invoiceNumber title ean quantity total,
            source_file := filename,
            source_row := rowNumber,
            upload_batch_id := uploadBatchId,
            data_type := "gazelle" }
        { records := acc.records ++ [record],
          unknownCount := acc.unknownCount + unknown }

/-- `processGazelleData(rawData, filename, uploadBatchId)`: one record
per non-empty row, positional columns, country and city fixed to
"Unknown".  `now` stands for `Date.now()` in the synthesized invoice
fallback. -/
def processGazelleData (rawData : List GRow) (filename : String)
    (uploadBatchId : Nat) (now : Nat) : ProcessResult :=
  rawData.enum.foldl (gazelleStep filename uploadBatchId now)
    { records := [], unknownCount := 0 }

/-! ## Customer-name alias mapping (`part_001`) -/

/-- The configured alias map `CUSTOMER_NAME_MAPPINGS`. -/
def customerNameMappings : List (String × String) :=
  [("ANTENNE - DIRECT UK", "Antenne Online UK"),
   ("ANTENNE - EXPORT", "Antenne Online UK")]

/-- ASCII upper-casing of a string (JS `toUpperCase` on the ASCII
strings the alias map holds). -/
def toUpperS (s : String) : String := String.mk (s.data.map toUpperC)

/-- `applyCustomerNameMapping(customerName)`: falsy input is returned
as is; otherwise the input is upper-cased and trimmed and compared to
each upper-cased key in configuration order; the first hit returns the
mapped name, otherwise the input is returned unchanged. -/
def applyCustomerNameMapping (customerName : String) : String :=
  if !truthy customerName then customerName
  else
    let upperCustomerName := jsTrimS (toUpperS customerName)
    match customerNameMappings.find? (fun p => upperCustomerName == toUpperS p.1) with
    | some p => p.2
    | none => customerName

/-! ## CSV upload parsing (the upload route, CSV branch) -/

/-- `parseCSVLine`'s scanner: a double quote toggles the inside-quotes
state, an unquoted comma ends the field, every field is trimmed. -/
def parseCSVLineGo (inQuotes : Bool) (current : List Char) : List Char → List String
  | [] => [String.mk (jsTrim current.reverse)]
  | c :: rest =>
    if c = '"' then parseCSVLineGo (!inQuotes) current rest
    else if c = ',' ∧ !inQuotes then
      String.mk (jsTrim current.reverse) :: parseCSVLineGo inQuotes [] rest
    else parseCSVLineGo inQuotes (c :: current) rest

/-- `parseCSVLine(line)` from the source. -/
def parseCSVLine (line : String) : List String :=
  parseCSVLineGo false [] line.data

/-- Build a row object from headers and values:
`row[header] = values[index] || ''`. -/
def buildRow (headers : List String) (values : List String) : Row :=
  headers.enum.map (fun p => (p.2, (values.get? p.1).getD ""))

/-- JS `split('\n')` on a character list: every newline separates two
(possibly empty) segments. -/
def splitLines : List Char → List (List Char)
  | [] => [[]]
  | c :: rest =>
    let r := splitLines rest
    if c = '\n' then [] :: r
    else
      match r with
      | h :: t => (c :: h) :: t
      | [] => [[c]]

/-- `csvText.split('\n').filter(line => line.trim())`. -/
def jsLines (csvText : String) : List String :=
  ((splitLines csvText.data).map String.mk).filter (fun l => truthy (jsTrimS l))

/-- The CSV branch of the upload route: error when no non-blank line
exists at all; otherwise the first non-blank line is the header and the
remaining non-blank lines become rows. -/
def parseCSVUpload (csvText : String) : Except String (List Row) :=
  match jsLines csvText with
  | [] => Except.error "CSV file is empty"
  | headerLine :: rest =>
    let headers := parseCSVLine headerLine
    Except.ok (rest.map (fun line => buildRow headers (parseCSVLine line)))

/-! ## The record store and the insert loop -/

/-- The compound natural key used both by `recordExists` and by the
`unique_order_line` index: (`order_reference`, `title`,
`COALESCE(book_ean, '')`, `quantity`, `total`). -/
def dedupKey (r : NormRecord) : String × String × String × Int × ℚ :=
  (r.order_reference, r.title, r.book_ean.getD "", r.quantity, r.total)

/-- The rows a successful existence query returns: every stored record
matching the candidate's compound key. -/
def matchingRows (store : List NormRecord) (r : NormRecord) : List NormRecord :=
  store.filter (fun s => decide (dedupKey s = dedupKey r))

/-- `recordExists`: on a successful query, whether any row matched; on a
query error, `false` (the catch block). -/
def recordExists (queryResult : Except String (List NormRecord)) : Bool :=
  match queryResult with
  | Except.ok rows => decide (0 < rows.length)
  | Except.error _ => false

/-- State threaded through the insert loop of the upload route: the
store's contents plus the inserted and skipped tallies. -/
structure UploadState where
  store : List NormRecord
  inserted : List NormRecord
  skipped : List NormRecord
deriving Repr, DecidableEq

/-- Outcome of the existence query for one candidate: either the error
injected by the oracle or the store's true answer. -/
def existsQuery (store : List NormRecord) (r : NormRecord)
    (qerr : Option String) : Except String (List NormRecord) :=
  match qerr with
  | some e => Except.error e
  | none => Except.ok (matchingRows store r)

/-- Whether the compound key of `r` is already present in the store. -/
def keyInStore (store : List NormRecord) (r : NormRecord) : Bool :=
  store.any (fun s => decide (dedupKey s = dedupKey r))

/-- One iteration of the insert loop: skip when `recordExists` answers
true; otherwise attempt the insert, which the store's unique index
rejects (error code 23505, caught and counted as skipped) when the
compound key is already present, and which otherwise stores the
record. -/
def uploadStep (st : UploadState) (r : NormRecord) (qerr : Option String) : UploadState :=
  if recordExists (existsQuery st.store r qerr) then
    { st with skipped := st.skipped ++ [r] }
  else if keyInStore st.store r then
    { st with skipped := st.skipped ++ [r] }
  else
    { store := st.store ++ [r], inserted := st.inserted ++ [r], skipped := st.skipped }

/-- The insert loop with an oracle assigning each candidate the outcome
of its existence query. -/
def runUploadWith (st : UploadState) (rs : List (NormRecord × Option String)) : UploadState :=
  rs.foldl (fun st p => uploadStep st p.1 p.2) st

/-- The insert loop when every existence query succeeds. -/
def runUpload (st : UploadState) (rs : List NormRecord) : UploadState :=
  runUploadWith st (rs.map (fun r => (r, none)))

/-- The whole CSV upload against a store: parse, process as Format A,
insert with duplicate checking.  A parse error inserts nothing. -/
def uploadPipeline (csvText filename : String) (uploadBatchId : Nat)
    (st : UploadState) : UploadState :=
  match parseCSVUpload csvText with
  | Except.error _ => st
  | Except.ok rows => runUpload st (processShopifyData rows filename uploadBatchId).records

/-- The candidate records a CSV upload submits to the insert loop. -/
def shopifyCandidates (csvText filename : String) (uploadBatchId : Nat) : List NormRecord :=
  match parseCSVUpload csvText with
  | Except.error _ => []
  | Except.ok rows => (processShopifyData rows filename uploadBatchId).records

/-! ## Predicates used in statements -/

/-- No two adjacent whitespace characters. -/
def noWsPair : List Char → Bool
  | a :: b :: rest => (!(jsWs a && jsWs b)) && noWsPair (b :: rest)
  | _ => true

/-- Whether the care-of/attention prefix rule of `cleanCustomerName`
fires on a string. -/
def careOfFires (s : List Char) : Bool :=
  (tryCareOf "c/o".data s).isSome || (tryCareOf "care of".data s).isSome ||
  (tryCareOf "attn:".data s).isSome || (tryCareOf "attention:".data s).isSome

/-! ## General lemmas -/

/-- Membership in the records accumulated by a fold: a record either was
already in the accumulator or is explained by one of the folded
elements. -/
theorem records_foldl_mem {α : Type} (step : ProcessResult → α → ProcessResult)
    (P : α → NormRecord → Prop)
    (hstep : ∀ acc a r, r ∈ (step acc a).records → r ∈ acc.records ∨ P a r) :
    ∀ (l : List α) (acc : ProcessResult) (r : NormRecord),
      r ∈ (l.foldl step acc).records → r ∈ acc.records ∨ ∃ a ∈ l, P a r := by
  intro l
  induction l with
  | nil => intro acc r h; exact Or.inl h
  | cons a t ih =>
    intro acc r h
    rcases ih (step acc a) r h with h1 | ⟨b, hb, hP⟩
    · rcases hstep acc a r h1 with h2 | hP
      · exact Or.inl h2
      · exact Or.inr ⟨a, by simp, hP⟩
    · exact Or.inr ⟨b, List.mem_cons_of_mem a hb, hP⟩

/-! ## Claim theorems -/

/-- C9: every record emitted by the Format-B (Gazelle) mapper carries
the literal country "Unknown" and the literal city "Unknown". -/
theorem gazelle_country_city_unknown :
    ∀ (rawData : List GRow) (filename : String) (uploadBatchId now : Nat)
      (r : NormRecord),
      r ∈ (processGazelleData rawData filename uploadBatchId now).records →
      r.country = "Unknown" ∧ r.city = "Unknown" := by
  intro rawData filename uploadBatchId now r hr
  unfold processGazelleData at hr
  have h := records_foldl_mem _
    (fun _ rec => rec.country = "Unknown" ∧ rec.city = "Unknown")
    ?_ _ _ _ hr
  · rcases h with h | ⟨_, _, hP⟩
    · simp at h
    · exact hP
  · intro acc a rec hmem
    unfold gazelleStep at hmem
    dsimp only at hmem
    split at hmem
    · exact Or.inl hmem
    · simp only [List.mem_append, List.mem_singleton] at hmem
      rcases hmem with h1 | rfl
      · exact Or.inl h1
      · exact Or.inr ⟨rfl, rfl⟩

/-- C9 witness: a concrete Gazelle row yields an "Unknown" location. -/
theorem gazelle_country_city_unknown_witness :
    ((processGazelleData [["2024-01-01"]] "g.xlsx" 2 777).records.head!).country = "Unknown" ∧
    ((processGazelleData [["2024-01-01"]] "g.xlsx" 2 777).records.head!).city = "Unknown" :=
  gazelle_country_city_unknown [["2024-01-01"]] "g.xlsx" 2 777 _
    (List.head!_mem_self (by
      intro h
      have hlen : (processGazelleData [["2024-01-01"]] "g.xlsx" 2 777).records.length = 1 := rfl
      rw [h] at hlen
      cases hlen))

/-- C10: `recordExists` answers `false` when the store query fails, and
the insert loop then proceeds to the insert attempt for that candidate
(inserting it when its key is absent, and falling into the
unique-index skip path rather than aborting when present). -/
theorem recordExists_error_proceeds_to_insert :
    (∀ e, recordExists (Except.error e) = false) ∧
    (∀ (st : UploadState) (r : NormRecord) (e : String),
      uploadStep st r (some e) =
        if keyInStore st.store r then { st with skipped := st.skipped ++ [r] }
        else { store := st.store ++ [r], inserted := st.inserted ++ [r],
               skipped := st.skipped }) := by
  constructor
  · intro e; rfl
  · intro st r e
    unfold uploadStep existsQuery recordExists
    simp

/-- C7 counterexample: the input padded with spaces is absent from the
alias map under case-insensitive exact comparison, yet the resolver
still changes it (the source also trims before comparing). -/
theorem alias_counterexample :
    applyCustomerNameMapping " ANTENNE - DIRECT UK " = "Antenne Online UK" ∧
    (∀ p ∈ customerNameMappings, toUpperS " ANTENNE - DIRECT UK " ≠ toUpperS p.1) ∧
    (" ANTENNE - DIRECT UK " : String) ≠ "Antenne Online UK" := by
  decide

/-- C7 amended: the alias resolver is the identity on names absent from
the map when compared case-insensitively after trimming, and maps any
hit (again case-insensitive after trimming) to the configured canonical
name. -/
theorem alias_resolver_amended :
    ∀ name : String,
      ((∀ p ∈ customerNameMappings, jsTrimS (toUpperS name) ≠ toUpperS p.1) →
        applyCustomerNameMapping name = name) ∧
      (∀ p ∈ customerNameMappings, jsTrimS (toUpperS name) = toUpperS p.1 →
        applyCustomerNameMapping name = "Antenne Online UK") := by
  intro name
  constructor
  · intro h
    unfold applyCustomerNameMapping
    split
    · rfl
    · have hfind :
        List.find? (fun p => jsTrimS (toUpperS name) == toUpperS p.1)
          customerNameMappings = none :=
        List.find?_eq_none.mpr (fun p hp => by simpa using h p hp)
      simp only [hfind]
  · intro p hp heq
    have hn : name ≠ "" := by
      intro he
      subst he
      simp only [customerNameMappings, List.mem_cons, List.mem_singleton] at hp
      rcases hp with rfl | hp
      · exact absurd heq (by decide)
      · rcases hp with rfl | hp
        · exact absurd heq (by decide)
        · simp at hp
    unfold applyCustomerNameMapping
    rw [if_neg (by simp [truthy, hn])]
    simp only [customerNameMappings, List.mem_cons, List.mem_singleton] at hp
    by_cases h1 : (jsTrimS (toUpperS name) == toUpperS "ANTENNE - DIRECT UK") = true
    · simp [customerNameMappings, List.find?, h1]
    · rcases hp with rfl | hp
      · exact absurd (beq_iff_eq.mpr heq) h1
      · rcases hp with rfl | hp
        · have h2 : (jsTrimS (toUpperS name) == toUpperS "ANTENNE - EXPORT") = true :=
            beq_iff_eq.mpr heq
          simp [customerNameMappings, List.find?, h1, h2]
        · simp at hp

/-- C7 witness: a miss is returned unchanged and a case-insensitive hit
is mapped. -/
theorem alias_resolver_amended_witness :
    applyCustomerNameMapping "Somebody" = "Somebody" ∧
    applyCustomerNameMapping "antenne - export" = "Antenne Online UK" :=
  ⟨(alias_resolver_amended "Somebody").1 (by decide),
   (alias_resolver_amended "antenne - export").2
     ("ANTENNE - EXPORT", "Antenne Online UK") (by decide) (by decide)⟩

/-- First row of the C1 scenario: order "#1001", empty billing company,
billing name "Jane Doe", one line item. -/
def c1Row1 : Row :=
  [("Name", "#1001"), ("Billing Company", ""), ("Billing Name", "Jane Doe"),
   ("Lineitem name", "Book A"), ("Lineitem quantity", "2"),
   ("Lineitem price", "5.50")]

/-- Second row of the C1 scenario: same order, billing company
"Acme Ltd", one line item. -/
def c1Row2 : Row :=
  [("Name", "#1001"), ("Billing Company", "Acme Ltd"),
   ("Lineitem name", "Book B"), ("Lineitem quantity", "1"),
   ("Lineitem price", "3")]

set_option maxHeartbeats 2000000 in
/-- C1 counterexample: in the two-row scenario both candidate names
survive cleaning, yet the emitted records carry "Jane Doe", not
"Acme Ltd" — the first row to resolve wins and the second row's company
is ignored. -/
theorem order_identity_counterexample :
    cleanCustomerName "Jane Doe" = some "Jane Doe" ∧
    cleanCustomerName "Acme Ltd" = some "Acme Ltd" ∧
    ((processShopifyData [c1Row1, c1Row2] "orders.csv" 1).records.map
      (fun r => r.customer_name)) = ["Jane Doe", "Jane Doe"] ∧
    ("Jane Doe" : String) ≠ "Acme Ltd" := by
  refine ⟨rfl, rfl, rfl, by decide⟩

set_option maxHeartbeats 2000000 in
/-- C1 amended: resolution is first-sufficient-row-wins — company is
preferred over name only within a single row, and once any row has
resolved an identity every later row is ignored; in the scenario both
records therefore carry "Jane Doe". -/
theorem order_identity_amended :
    ((processShopifyData [c1Row1, c1Row2] "orders.csv" 1).records.map
      (fun r => r.customer_name)) = ["Jane Doe", "Jane Doe"] ∧
    (∀ (ci : CustomerInfo) (row : Row), ci.name.isSome = true →
      resolveCustomer ci row = ci) ∧
    (∀ (ci : CustomerInfo) (row : Row), ci.company.isSome = true →
      resolveCustomer ci row = ci) := by
  refine ⟨rfl, ?_, ?_⟩
  · intro ci row h
    unfold resolveCustomer
    rw [if_neg]
    simp [Option.isNone_iff_eq_none]
    intro hname
    rw [hname] at h
    simp at h
  · intro ci row h
    unfold resolveCustomer
    rw [if_neg]
    simp [Option.isNone_iff_eq_none]
    intro _ hcomp
    rw [hcomp] at h
    simp at h

/-- C1 witness: a group with an already-resolved name (or company) is
left untouched by any further row. -/
theorem order_identity_amended_witness :
    resolveCustomer ⟨some "Jane Doe", none, none, none, 2⟩ c1Row2 =
      ⟨some "Jane Doe", none, none, none, 2⟩ ∧
    resolveCustomer ⟨none, some "Acme Ltd", none, none, 2⟩ c1Row1 =
      ⟨none, some "Acme Ltd", none, none, 2⟩ :=
  ⟨order_identity_amended.2.1 _ c1Row2 (by decide),
   order_identity_amended.2.2 _ c1Row1 (by decide)⟩

/-- C5 counterexample: raw names beginning with a digit token are not
rejected — the token is stripped and the remainder is accepted. -/
theorem address_heuristic_counterexample :
    cleanCustomerName "1 Main Street" = some "Main Street" ∧
    cleanCustomerName "123 Main Street" = some "Main Street" := by
  decide

/-- A name accepted by the validation step never starts with digits
followed by whitespace (the second validation check rejects those). -/
theorem validateName_no_digit_ws :
    ∀ (l : List Char) (s : String), validateName l = some s →
      startsDigitWs s.data = false := by
  intro l s h
  unfold validateName at h
  split at h
  · cases h
  · split at h
    · cases h
    · rename_i hdig
      split at h
      · cases h
      · split at h
        · cases h
        · injection h with he
          rw [← he]
          show startsDigitWs l = false
          cases hb : startsDigitWs l
          · rfl
          · exact absurd hb hdig

set_option maxHeartbeats 2000000 in
/-- C5 amended: `cleanCustomerName` never returns a name that still
begins with digits followed by whitespace, but a raw name beginning with
a single digit token has the token stripped rather than being rejected:
"123 Main Street" cleans to "Main Street", a name with two leading digit
tokens is rejected, and "Acme Corp Ltd" is accepted with its suffix
preserved. -/
theorem address_heuristic_amended :
    (∀ raw s, cleanCustomerName raw = some s → startsDigitWs s.data = false) ∧
    cleanCustomerName "123 Main Street" = some "Main Street" ∧
    cleanCustomerName "12 34 Main" = none ∧
    cleanCustomerName "Acme Corp Ltd" = some "Acme Corp Ltd" := by
  refine ⟨?_, by decide, by decide, by decide⟩
  intro raw s h
  unfold cleanCustomerName at h
  split at h
  · cases h
  · exact validateName_no_digit_ws _ _ h

/-- C5 witness: the accepted output "Main Street" indeed does not start
with digits and whitespace. -/
theorem address_heuristic_amended_witness :
    startsDigitWs ("Main Street" : String).data = false :=
  address_heuristic_amended.1 "123 Main Street" "Main Street" (by decide)

/-- C6 counterexample: a file whose only non-blank line is the header
parses successfully to zero rows (no empty-input error), and the upload
leaves the store untouched. -/
theorem empty_input_counterexample :
    parseCSVUpload "Name,Email\n\n" = Except.ok [] ∧
    uploadPipeline "Name,Email\n\n" "orders.csv" 1 ⟨[], [], []⟩ = ⟨[], [], []⟩ :=
  ⟨rfl, rfl⟩

/-- C6 amended: the empty-input error fires exactly when the file
contains no non-blank line at all; in the error case and in the
header-only case alike, nothing is inserted. -/
theorem empty_input_amended :
    ∀ csv : String,
      ((parseCSVUpload csv = Except.error "CSV file is empty") ↔ jsLines csv = []) ∧
      (jsLines csv = [] → ∀ filename b st, uploadPipeline csv filename b st = st) ∧
      (∀ l, jsLines csv = [l] → ∀ filename b st, uploadPipeline csv filename b st = st) := by
  intro csv
  refine ⟨⟨?_, ?_⟩, ?_, ?_⟩
  · intro h
    unfold parseCSVUpload at h
    rcases he : jsLines csv with _ | ⟨hd, tl⟩
    · rfl
    · rw [he] at h
      cases h
  · intro h
    unfold parseCSVUpload
    rw [h]
  · intro h filename b st
    unfold uploadPipeline parseCSVUpload
    rw [h]
  · intro l h filename b st
    unfold uploadPipeline parseCSVUpload
    rw [h]
    show runUpload st (processShopifyData [] filename b).records = st
    rfl

/-- C6 witness: the totally empty file errors; a header-only upload is a
no-op on the store. -/
theorem empty_input_amended_witness :
    parseCSVUpload "" = Except.error "CSV file is empty" ∧
    uploadPipeline "Name,Email\n\n" "orders.csv" 3 ⟨[], [], []⟩ = ⟨[], [], []⟩ :=
  ⟨(empty_input_amended "").1.mpr (by decide),
   (empty_input_amended "Name,Email\n\n").2.2 "Name,Email" (by decide) "orders.csv" 3 _⟩

/-- An invariant holds after a fold when every step taken on a list
element preserves it. -/
theorem foldl_inv {α β : Type} (step : β → α → β) (Inv : β → Prop) :
    ∀ (l : List α), (∀ acc a, a ∈ l → Inv acc → Inv (step acc a)) →
      ∀ init, Inv init → Inv (l.foldl step init) := by
  intro l
  induction l with
  | nil => intro _ init h; exact h
  | cons a t ih =>
    intro hstep init hinit
    exact ih (fun acc b hb h => hstep acc b (List.mem_cons_of_mem a hb) h)
      (step init a) (hstep init a (List.mem_cons_self a t) hinit)

/-- The second component of an `enum` entry is an element of the list. -/
theorem snd_mem_of_mem_enum {α : Type} {p : Nat × α} {l : List α}
    (h : p ∈ l.enum) : p.2 ∈ l := by
  obtain ⟨i, x⟩ := p
  obtain ⟨h1, h2⟩ := List.mem_enum h
  exact h2 ▸ List.getElem_mem h1

/-- Membership after a group update: an entry either was in the map or
carries the updated group under an existing key. -/
theorem mem_updateGroup {gs : Groups} {k : String} {g : OrderGroup} {q}
    (h : q ∈ updateGroup gs k g) : q ∈ gs ∨ ∃ p ∈ gs, q = (p.1, g) := by
  unfold updateGroup at h
  obtain ⟨p, hp, hfq⟩ := List.mem_map.mp h
  by_cases hc : (p.1 == k) = true
  · rw [if_pos hc] at hfq
    exact Or.inr ⟨p, hp, hfq.symm⟩
  · rw [if_neg hc] at hfq
    exact Or.inl (hfq ▸ hp)

/-- A group found in the map is the group of one of its entries. -/
theorem findGroup_mem {gs : Groups} {k : String} {g : OrderGroup}
    (h : findGroup gs k = some g) : ∃ p ∈ gs, p.2 = g := by
  unfold findGroup at h
  obtain ⟨p, hp, h2⟩ := Option.map_eq_some'.mp h
  exact ⟨p, List.mem_of_find?_eq_some hp, h2⟩

/-- `ensureGroup` preserves any per-entry property that holds of fresh
groups. -/
theorem ensureGroup_item_rows {gs : Groups} {k : String} {n : Nat}
    {P : String × OrderGroup → Prop}
    (hInv : ∀ q ∈ gs, P q) (hfresh : ∀ s, P (s, freshGroup n)) :
    ∀ q ∈ ensureGroup gs k n, P q := by
  unfold ensureGroup
  split
  · exact hInv
  · intro q hq
    rcases List.mem_append.mp hq with hq1 | hq2
    · exact hInv q hq1
    · rw [List.mem_singleton] at hq2
      exact hq2 ▸ hfresh k

/-- Every line item retained in an order group is one of the scanned
input rows. -/
theorem buildOrderGroups_item_rows (rawData : List Row) :
    ∀ q ∈ buildOrderGroups rawData, ∀ item ∈ q.2.lineItems, item.1 ∈ rawData := by
  unfold buildOrderGroups
  refine foldl_inv shopifyGroupStep
    (fun gs => ∀ q ∈ gs, ∀ item ∈ q.2.lineItems, item.1 ∈ rawData)
    rawData.enum ?_ [] (by simp)
  intro gs a ha hInv
  have hrow : a.2 ∈ rawData := snd_mem_of_mem_enum ha
  unfold shopifyGroupStep
  dsimp only
  split
  · exact hInv
  · have hg1 : ∀ q ∈ ensureGroup gs (rowGet a.2 "Name") (a.1 + 2),
        ∀ item ∈ q.2.lineItems, item.1 ∈ rawData :=
      ensureGroup_item_rows hInv (fun s item hitem => by simp [freshGroup] at hitem)
    split
    · rename_i g hfg
      obtain ⟨pg, hpg, hpg2⟩ := findGroup_mem hfg
      intro q hq
      rcases mem_updateGroup hq with hq1 | ⟨p, hp, rfl⟩
      · exact hg1 q hq1
      · intro item hitem
        unfold rowUpdateGroup at hitem
        dsimp only at hitem
        split at hitem
        · rcases List.mem_append.mp hitem with hi1 | hi2
          · exact hg1 pg hpg item (hpg2 ▸ hi1)
          · rw [List.mem_singleton] at hi2
            subst hi2
            exact hrow
        · exact hg1 pg hpg item (hpg2 ▸ hitem)
    · exact hg1

/-- Every emitted Format-A record is the record of one retained line
item of one order group. -/
theorem processShopify_mem {rawData : List Row} {fn : String} {bid : Nat}
    {r : NormRecord} (h : r ∈ (processShopifyData rawData fn bid).records) :
    ∃ p ∈ buildOrderGroups rawData, ∃ item ∈ p.2.lineItems,
      r = shopifyRecordOfItem p.1 (groupDisplayName p.2)
        (p.2.customerInfo.country.getD "Unknown")
        (p.2.customerInfo.city.getD "Unknown") fn bid item := by
  unfold processShopifyData at h
  have hm := records_foldl_mem (shopifyEmitStep fn bid)
    (fun p r => ∃ item ∈ p.2.lineItems,
      r = shopifyRecordOfItem p.1 (groupDisplayName p.2)
        (p.2.customerInfo.country.getD "Unknown")
        (p.2.customerInfo.city.getD "Unknown") fn bid item)
    ?_ _ _ _ h
  · rcases hm with hin | ⟨p, hp, hitem⟩
    · simp at hin
    · exact ⟨p, hp, hitem⟩
  · intro acc p rec hmem
    unfold shopifyEmitStep at hmem
    dsimp only at hmem
    rcases List.mem_append.mp hmem with h1 | h2
    · exact Or.inl h1
    · obtain ⟨item, hi, hrec⟩ := List.mem_map.mp h2
      exact Or.inr ⟨item, hi, hrec.symm⟩

/-- A `parseInt` result with no leading minus sign is non-negative. -/
theorem jsParseIntCore_nonneg :
    ∀ (l : List Char), l.head? ≠ some '-' →
      ∀ n, jsParseIntCore l = some n → 0 ≤ n := by
  intro l h n hn
  unfold jsParseIntCore at hn
  split at hn
  · exact absurd rfl h
  · obtain ⟨m, _, hm⟩ := Option.map_eq_some'.mp hn
    subst hm
    exact Int.natCast_nonneg m
  · obtain ⟨m, _, hm⟩ := Option.map_eq_some'.mp hn
    subst hm
    exact Int.natCast_nonneg m

/-- The shopify row of the C8 counterexample: its raw line-item
quantity is "-3". -/
def c8Row : Row :=
  [("Name", "#2002"), ("Lineitem name", "Book"), ("Lineitem quantity", "-3"),
   ("Lineitem price", "4")]

set_option maxHeartbeats 1000000 in
/-- C8 counterexample: a Format-A row with raw quantity "-3" emits a
record whose quantity is the negative integer -3. -/
theorem quantity_counterexample :
    ((processShopifyData [c8Row] "orders.csv" 1).records.map
      (fun r => r.quantity)) = [(-3 : Int)] ∧ ((-3 : Int) < 0) :=
  ⟨rfl, by decide⟩

/-- C8 amended: each emitted quantity is `parseInt(raw) || 0` of the
row's raw quantity field, so it is 0 whenever the raw value is
unparseable and non-negative whenever the raw value does not start with
a minus sign — but a raw value such as "-3" produces a negative
quantity; non-negativity is not enforced. -/
theorem quantity_amended :
    (∀ s, jsParseInt s = none → jsParseIntOr0 s = 0) ∧
    (∀ s, (s.data.dropWhile jsWs).head? ≠ some '-' → 0 ≤ jsParseIntOr0 s) ∧
    (∀ rawData filename uploadBatchId r,
      r ∈ (processShopifyData rawData filename uploadBatchId).records →
      ∃ row ∈ rawData, r.quantity = jsParseIntOr0 (rowGet row "Lineitem quantity")) ∧
    (∀ rawData filename uploadBatchId now r,
      r ∈ (processGazelleData rawData filename uploadBatchId now).records →
      ∃ row ∈ rawData, r.quantity = jsParseIntOr0 (gIdx row 8)) := by
  refine ⟨?_, ?_, ?_, ?_⟩
  · intro s h
    unfold jsParseIntOr0
    rw [h]
  · intro s h
    unfold jsParseIntOr0
    rcases hp : jsParseInt s with _ | n
    · exact le_refl 0
    · exact jsParseIntCore_nonneg _ h n hp
  · intro rawData filename uploadBatchId r h
    obtain ⟨p, hp, item, hitem, rfl⟩ := processShopify_mem h
    exact ⟨item.1, buildOrderGroups_item_rows rawData p hp item hitem, rfl⟩
  · intro rawData filename uploadBatchId now r h
    unfold processGazelleData at h
    have hm := records_foldl_mem (gazelleStep filename uploadBatchId now)
      (fun a rec => rec.quantity = jsParseIntOr0 (gIdx a.2 8)) ?_ _ _ _ h
    · rcases hm with hin | ⟨a, ha, hq⟩
      · simp at hin
      · exact ⟨a.2, snd_mem_of_mem_enum ha, hq⟩
    · intro acc a rec hmem
      unfold gazelleStep at hmem
      dsimp only at hmem
      split at hmem
      · exact Or.inl hmem
      · rcases List.mem_append.mp hmem with h1 | h2
        · exact Or.inl h1
        · rw [List.mem_singleton] at h2
          subst h2
          exact Or.inr rfl

/-- C8 witness: an unparseable quantity yields 0, a plain digit string
a non-negative value, and concrete records of both formats carry the
parsed quantity of their row. -/
theorem quantity_amended_witness :
    jsParseIntOr0 "abc" = 0 ∧ (0 : Int) ≤ jsParseIntOr0 "7" ∧
    (∃ row ∈ [c8Row],
      ((processShopifyData [c8Row] "orders.csv" 1).records.head!).quantity =
        jsParseIntOr0 (rowGet row "Lineitem quantity")) ∧
    (∃ row ∈ [["2024-01-01"]],
      ((processGazelleData [["2024-01-01"]] "g.xlsx" 2 777).records.head!).quantity =
        jsParseIntOr0 (gIdx row 8)) :=
  ⟨quantity_amended.1 "abc" (by decide),
   quantity_amended.2.1 "7" (by decide),
   quantity_amended.2.2.1 [c8Row] "orders.csv" 1 _
     (List.head!_mem_self (by
       intro h
       have hlen : (processShopifyData [c8Row] "orders.csv" 1).records.length = 1 := rfl
       rw [h] at hlen
       cases hlen)),
   quantity_amended.2.2.2 [["2024-01-01"]] "g.xlsx" 2 777 _
     (List.head!_mem_self (by
       intro h
       have hlen : (processGazelleData [["2024-01-01"]] "g.xlsx" 2 777).records.length = 1 := rfl
       rw [h] at hlen
       cases hlen))⟩

/-! ## The duplicate-upload development (C2) -/

/-- The existence check is key membership in the store. -/
theorem keyInStore_iff {store : List NormRecord} {r : NormRecord} :
    keyInStore store r = true ↔ dedupKey r ∈ store.map dedupKey := by
  unfold keyInStore
  rw [List.any_eq_true]
  constructor
  · rintro ⟨s, hs, hp⟩
    exact List.mem_map.mpr ⟨s, hs, of_decide_eq_true hp⟩
  · intro h
    obtain ⟨s, hs, he⟩ := List.mem_map.mp h
    exact ⟨s, hs, decide_eq_true he⟩

/-- A successful existence query answers exactly key membership. -/
theorem recordExists_ok {store : List NormRecord} {r : NormRecord} :
    recordExists (Except.ok (matchingRows store r)) = keyInStore store r := by
  unfold recordExists matchingRows keyInStore
  by_cases h : store.any (fun s => decide (dedupKey s = dedupKey r)) = true
  · rw [h]
    apply decide_eq_true
    obtain ⟨s, hs, hp⟩ := List.any_eq_true.mp h
    apply List.length_pos.mpr
    intro hnil
    have := List.filter_eq_nil_iff.mp hnil s hs
    exact this hp
  · rw [Bool.not_eq_true] at h
    rw [h]
    apply decide_eq_false
    intro hlen
    obtain ⟨s, hs⟩ := List.exists_mem_of_length_pos hlen
    have hsf := List.mem_filter.mp hs
    have hany : store.any (fun s => decide (dedupKey s = dedupKey r)) = true :=
      List.any_eq_true.mpr ⟨s, hsf.1, hsf.2⟩
    rw [h] at hany
    cases hany

/-- One loop iteration with a successful existence query: skip when the
key is present, store otherwise. -/
theorem uploadStep_none (st : UploadState) (r : NormRecord) :
    uploadStep st r none =
      if keyInStore st.store r then { st with skipped := st.skipped ++ [r] }
      else { store := st.store ++ [r], inserted := st.inserted ++ [r],
             skipped := st.skipped } := by
  unfold uploadStep existsQuery
  rw [recordExists_ok]
  by_cases h : keyInStore st.store r = true
  · rw [h]
    simp
  · rw [Bool.not_eq_true] at h
    rw [h]
    simp

/-- Unfolding of the insert loop on a cons cell. -/
theorem runUpload_cons (st : UploadState) (r : NormRecord) (rs : List NormRecord) :
    runUpload st (r :: rs) = runUpload (uploadStep st r none) rs := rfl

/-- The insert loop only appends to the store. -/
theorem runUpload_store_ext :
    ∀ (rs : List NormRecord) (st : UploadState),
      ∃ ext, (runUpload st rs).store = st.store ++ ext := by
  intro rs
  induction rs with
  | nil => intro st; exact ⟨[], by simp [runUpload, runUploadWith]⟩
  | cons r t ih =>
    intro st
    rw [runUpload_cons, uploadStep_none]
    by_cases h : keyInStore st.store r = true
    · rw [if_pos h]
      obtain ⟨ext, he⟩ := ih { st with skipped := st.skipped ++ [r] }
      exact ⟨ext, he⟩
    · rw [if_neg h]
      obtain ⟨ext, he⟩ := ih
        { store := st.store ++ [r], inserted := st.inserted ++ [r], skipped := st.skipped }
      exact ⟨[r] ++ ext, by rw [he]; simp⟩

/-- A key present in the store stays present through the loop. -/
theorem runUpload_key_mono {rs : List NormRecord} {st : UploadState}
    {r : NormRecord} (h : keyInStore st.store r = true) :
    keyInStore (runUpload st rs).store r = true := by
  obtain ⟨ext, he⟩ := runUpload_store_ext rs st
  rw [keyInStore_iff] at h ⊢
  rw [he, List.map_append]
  exact List.mem_append_left _ h

/-- After the loop has run, the key of every processed candidate is in
the store (it was either found there or inserted). -/
theorem runUpload_key_after :
    ∀ (rs : List NormRecord) (st : UploadState) (r : NormRecord), r ∈ rs →
      keyInStore (runUpload st rs).store r = true := by
  intro rs
  induction rs with
  | nil => intro st r h; cases h
  | cons a t ih =>
    intro st r h
    rcases List.mem_cons.mp h with rfl | hmem
    · rw [runUpload_cons]
      apply runUpload_key_mono
      rw [uploadStep_none]
      by_cases hk : keyInStore st.store r = true
      · rw [if_pos hk]
        exact hk
      · rw [if_neg hk]
        rw [keyInStore_iff]
        show dedupKey r ∈ (st.store ++ [r]).map dedupKey
        rw [List.map_append]
        exact List.mem_append_right _ (by simp)
    · rw [runUpload_cons]
      exact ih _ r hmem

/-- When every candidate's key is already in the store, the loop skips
everything: nothing is inserted and the store is unchanged. -/
theorem runUpload_all_skipped :
    ∀ (rs : List NormRecord) (st : UploadState),
      (∀ r ∈ rs, keyInStore st.store r = true) →
      runUpload st rs = { st with skipped := st.skipped ++ rs } := by
  intro rs
  induction rs with
  | nil => intro st _; simp [runUpload, runUploadWith]
  | cons a t ih =>
    intro st h
    rw [runUpload_cons, uploadStep_none, if_pos (h a (List.mem_cons_self a t))]
    rw [ih { st with skipped := st.skipped ++ [a] } (fun r hr => h r (List.mem_cons_of_mem a hr))]
    simp

/-- The loop preserves distinctness of the stored keys: it never inserts
a record whose key is already present. -/
theorem runUpload_nodup :
    ∀ (rs : List NormRecord) (st : UploadState),
      (st.store.map dedupKey).Nodup →
      ((runUpload st rs).store.map dedupKey).Nodup := by
  intro rs
  induction rs with
  | nil => intro st h; exact h
  | cons a t ih =>
    intro st h
    rw [runUpload_cons, uploadStep_none]
    by_cases hk : keyInStore st.store a = true
    · rw [if_pos hk]
      exact ih _ h
    · rw [if_neg hk]
      apply ih
      show ((st.store ++ [a]).map dedupKey).Nodup
      rw [List.map_append]
      rw [List.nodup_append]
      refine ⟨h, by simp, ?_⟩
      intro x hx hxa
      simp only [List.map_cons, List.map_nil, List.mem_singleton] at hxa
      subst hxa
      exact hk (keyInStore_iff.mpr hx)

/-- The compound key of an emitted record does not depend on the upload
batch id. -/
theorem dedupKey_item_batch (o n c ci f : String) (b b' : Nat) (item : Row × Nat) :
    dedupKey (shopifyRecordOfItem o n c ci f b item) =
    dedupKey (shopifyRecordOfItem o n c ci f b' item) := rfl

/-- The key list of the emitted records does not depend on the upload
batch id. -/
theorem emit_keys_batch (fn : String) (b b' : Nat) :
    ∀ (gs : Groups) (acc acc' : ProcessResult),
      acc.records.map dedupKey = acc'.records.map dedupKey →
      ((gs.foldl (shopifyEmitStep fn b) acc).records).map dedupKey =
      ((gs.foldl (shopifyEmitStep fn b') acc').records).map dedupKey := by
  intro gs
  induction gs with
  | nil => intro acc acc' h; exact h
  | cons p t ih =>
    intro acc acc' h
    rw [List.foldl_cons, List.foldl_cons]
    apply ih
    unfold shopifyEmitStep
    dsimp only
    rw [List.map_append, List.map_append, h, List.map_map, List.map_map]
    rfl

/-- The key list of the candidates of an upload does not depend on the
upload batch id. -/
theorem candidates_keys_batch (csv fn : String) (b b' : Nat) :
    (shopifyCandidates csv fn b).map dedupKey =
    (shopifyCandidates csv fn b').map dedupKey := by
  unfold shopifyCandidates
  rcases hp : parseCSVUpload csv with e | rows
  · rfl
  · exact emit_keys_batch fn b b' (buildOrderGroups rows) _ _ rfl

set_option maxHeartbeats 1000000 in
/-- C2: re-uploading a byte-identical Format-A file is a no-op on the
store — the second run inserts nothing, skips every candidate as a
duplicate, leaves the store unchanged, and never creates a second
record with an already-present compound key. -/
theorem duplicate_upload_idempotent :
    ∀ (csvText filename : String) (b1 b2 : Nat) (store0 : List NormRecord)
      (st1 st2 : UploadState),
      st1 = uploadPipeline csvText filename b1 ⟨store0, [], []⟩ →
      st2 = uploadPipeline csvText filename b2 ⟨st1.store, [], []⟩ →
      st2.inserted = [] ∧
      st2.skipped = shopifyCandidates csvText filename b2 ∧
      st2.store = st1.store ∧
      ((store0.map dedupKey).Nodup →
        (st1.store.map dedupKey).Nodup ∧ (st2.store.map dedupKey).Nodup) := by
  intro csvText filename b1 b2 store0 st1 st2 h1 h2
  unfold uploadPipeline at h1 h2
  unfold shopifyCandidates
  rcases hp : parseCSVUpload csvText with e | rows
  · rw [hp] at h1 h2
    dsimp only at h1 h2
    subst h1
    subst h2
    exact ⟨rfl, rfl, rfl, fun h => ⟨h, h⟩⟩
  · rw [hp] at h1 h2
    dsimp only at h1 h2
    have hkeys : ((processShopifyData rows filename b2).records).map dedupKey =
        ((processShopifyData rows filename b1).records).map dedupKey :=
      emit_keys_batch filename b2 b1 (buildOrderGroups rows) _ _ rfl
    have hall : ∀ r ∈ (processShopifyData rows filename b2).records,
        keyInStore st1.store r = true := by
      intro r hr
      have hmem : dedupKey r ∈ ((processShopifyData rows filename b2).records).map dedupKey :=
        List.mem_map_of_mem dedupKey hr
      rw [hkeys] at hmem
      obtain ⟨r1, hr1, hdk⟩ := List.mem_map.mp hmem
      have hk1 : keyInStore (runUpload ⟨store0, [], []⟩
          (processShopifyData rows filename b1).records).store r1 = true :=
        runUpload_key_after _ _ r1 hr1
      rw [keyInStore_iff] at hk1 ⊢
      rw [← h1] at hk1
      exact hdk ▸ hk1
    have h2' : st2 =
        UploadState.mk st1.store [] ([] ++ (processShopifyData rows filename b2).records) := by
      rw [h2]
      exact runUpload_all_skipped _ ⟨st1.store, [], []⟩ hall
    refine ⟨by rw [h2'], by rw [h2']; simp, by rw [h2'], ?_⟩
    intro hn
    have hst1 : (st1.store.map dedupKey).Nodup := by
      rw [h1]
      exact runUpload_nodup _ ⟨store0, [], []⟩ hn
    exact ⟨hst1, by rw [h2']; exact hst1⟩

/-- The CSV content used by the C2 witness. -/
def c2csv : String :=
  "Name,Billing Name,Lineitem name,Lineitem quantity,Lineitem price\n#1,Jane Doe,Book,2,3"

set_option maxHeartbeats 2000000 in
/-- C2 witness: a concrete file uploaded twice — the second run inserts
nothing, skips all candidates, and the store keys stay distinct. -/
theorem duplicate_upload_idempotent_witness :
    (uploadPipeline c2csv "orders.csv" 2
      ⟨(uploadPipeline c2csv "orders.csv" 1 ⟨[], [], []⟩).store, [], []⟩).inserted = [] ∧
    (uploadPipeline c2csv "orders.csv" 2
      ⟨(uploadPipeline c2csv "orders.csv" 1 ⟨[], [], []⟩).store, [], []⟩).skipped =
      shopifyCandidates c2csv "orders.csv" 2 ∧
    (((uploadPipeline c2csv "orders.csv" 2
      ⟨(uploadPipeline c2csv "orders.csv" 1 ⟨[], [], []⟩).store, [], []⟩).store.map
        dedupKey).Nodup) := by
  have h := duplicate_upload_idempotent c2csv "orders.csv" 1 2 []
    (uploadPipeline c2csv "orders.csv" 1 ⟨[], [], []⟩)
    (uploadPipeline c2csv "orders.csv" 2
      ⟨(uploadPipeline c2csv "orders.csv" 1 ⟨[], [], []⟩).store, [], []⟩) rfl rfl
  exact ⟨h.1, h.2.1, (h.2.2.2 (by simp)).2⟩

/-! ## Conditional idempotence of the name cleaner (C3) -/

/-- A character of a fully-cleaned simple name: an ASCII letter or a
space. -/
def niceChar (ch : Char) : Bool := isAsciiLetterC ch || ch == ' '

/-- Case analysis for a simple-name character. -/
theorem niceChar_cases {ch : Char} (h : niceChar ch = true) :
    (65 ≤ ch.toNat ∧ ch.toNat ≤ 90) ∨ (97 ≤ ch.toNat ∧ ch.toNat ≤ 122) ∨ ch = ' ' := by
  unfold niceChar isAsciiLetterC at h
  simp only [Bool.or_eq_true, Bool.and_eq_true, decide_eq_true_eq, beq_iff_eq] at h
  tauto

/-- Unequal code points give unequal characters. -/
theorem char_ne_of_toNat_ne {a b : Char} (h : a.toNat ≠ b.toNat) : a ≠ b :=
  fun he => h (he ▸ rfl)

/-- A simple-name character is whitespace only if it is the space. -/
theorem niceChar_ws {ch : Char} (h : niceChar ch = true) (hw : jsWs ch = true) :
    ch = ' ' := by
  rcases niceChar_cases h with h1 | h1 | rfl
  · exfalso
    unfold jsWs at hw
    simp only [Bool.or_eq_true, Bool.and_eq_true, decide_eq_true_eq,
      Nat.beq_eq_true_eq] at hw
    omega
  · exfalso
    unfold jsWs at hw
    simp only [Bool.or_eq_true, Bool.and_eq_true, decide_eq_true_eq,
      Nat.beq_eq_true_eq] at hw
    omega
  · rfl

/-- A letter is not whitespace. -/
theorem niceChar_letter_not_ws {ch : Char} (h : niceChar ch = true)
    (hne : ch ≠ ' ') : jsWs ch = false := by
  cases hw : jsWs ch
  · rfl
  · exact absurd (niceChar_ws h hw) hne

/-- Code-point bounds of a simple-name character. -/
theorem niceChar_toNat {ch : Char} (h : niceChar ch = true) :
    (65 ≤ ch.toNat ∧ ch.toNat ≤ 90) ∨ (97 ≤ ch.toNat ∧ ch.toNat ≤ 122) ∨
    ch.toNat = 32 := by
  rcases niceChar_cases h with h1 | h1 | rfl
  · exact Or.inl h1
  · exact Or.inr (Or.inl h1)
  · exact Or.inr (Or.inr rfl)

/-- A simple-name character is not an ampersand. -/
theorem niceChar_ne_amp {ch : Char} (h : niceChar ch = true) : ch ≠ '&' := by
  have hn := niceChar_toNat h
  have ha : ('&').toNat = 38 := rfl
  exact char_ne_of_toNat_ne (by omega)

/-- A simple-name character is not a comma. -/
theorem niceChar_ne_comma {ch : Char} (h : niceChar ch = true) : ch ≠ ',' := by
  have hn := niceChar_toNat h
  have ha : (',').toNat = 44 := rfl
  exact char_ne_of_toNat_ne (by omega)

/-- A simple-name character is not a curly double quote. -/
theorem niceChar_not_curlyD {ch : Char} (h : niceChar ch = true) :
    isCurlyDouble ch = false := by
  cases hb : isCurlyDouble ch
  · rfl
  · exfalso
    unfold isCurlyDouble at hb
    simp only [Bool.or_eq_true, beq_iff_eq] at hb
    have hn := niceChar_toNat h
    omega

/-- A simple-name character is not a curly single quote. -/
theorem niceChar_not_curlyS {ch : Char} (h : niceChar ch = true) :
    isCurlySingle ch = false := by
  cases hb : isCurlySingle ch
  · rfl
  · exfalso
    unfold isCurlySingle at hb
    simp only [Bool.or_eq_true, beq_iff_eq] at hb
    have hn := niceChar_toNat h
    omega

/-- A simple-name character is not a control character. -/
theorem niceChar_not_ctrl {ch : Char} (h : niceChar ch = true) :
    isCtrlC ch = false := by
  cases hb : isCtrlC ch
  · rfl
  · exfalso
    unfold isCtrlC at hb
    simp only [Bool.or_eq_true, Bool.and_eq_true, decide_eq_true_eq] at hb
    have hn := niceChar_toNat h
    omega

/-- A simple-name character is not a Unicode space variant. -/
theorem niceChar_not_unispace {ch : Char} (h : niceChar ch = true) :
    isUniSpaceC ch = false := by
  cases hb : isUniSpaceC ch
  · rfl
  · exfalso
    unfold isUniSpaceC at hb
    simp only [Bool.or_eq_true, Bool.and_eq_true, decide_eq_true_eq, beq_iff_eq] at hb
    have hn := niceChar_toNat h
    omega

/-- A simple-name character is not a digit. -/
theorem niceChar_not_digit {ch : Char} (h : niceChar ch = true) :
    isDigitC ch = false := by
  cases hb : isDigitC ch
  · rfl
  · exfalso
    unfold isDigitC at hb
    simp only [Bool.and_eq_true, decide_eq_true_eq] at hb
    have hn := niceChar_toNat h
    omega

/-- `dropWhile` is the identity when the head fails the predicate. -/
theorem dropWhile_eq_self_of_head {α : Type} (p : α → Bool) (l : List α)
    (h : ∀ c, l.head? = some c → p c = false) : l.dropWhile p = l := by
  cases l with
  | nil => rfl
  | cons a t =>
    rw [List.dropWhile_cons]
    simp [h a rfl]

/-- `takeWhile` is empty when the head fails the predicate. -/
theorem takeWhile_eq_nil_of_head {α : Type} (p : α → Bool) (l : List α)
    (h : ∀ c, l.head? = some c → p c = false) : l.takeWhile p = [] := by
  cases l with
  | nil => rfl
  | cons a t =>
    rw [List.takeWhile_cons]
    simp [h a rfl]

/-- The head of `dropWhile` fails the predicate. -/
theorem head?_dropWhile_false {α : Type} (p : α → Bool) (l : List α) :
    ∀ c, (l.dropWhile p).head? = some c → p c = false := by
  intro c hc
  have hh := List.head?_dropWhile_not p l
  rw [hc] at hh
  exact hh

/-- `dropWhile` keeps the last element when it keeps anything. -/
theorem getLast?_dropWhile {α : Type} (p : α → Bool) (l : List α)
    (h : l.dropWhile p ≠ []) : (l.dropWhile p).getLast? = l.getLast? := by
  obtain ⟨pre, hpre⟩ := List.dropWhile_suffix (l := l) p
  have hl : l.getLast? = (pre ++ l.dropWhile p).getLast? := by rw [hpre]
  rw [hl, List.getLast?_append]
  cases hg : (l.dropWhile p).getLast? with
  | none =>
    exfalso
    apply h
    have hi := List.getLast?_isSome (l := l.dropWhile p)
    rw [hg] at hi
    by_contra hne
    exact absurd (hi.mpr hne) (by simp)
  | some x => rfl

/-- `jsTrim` is the identity when both ends are non-whitespace. -/
theorem jsTrim_eq_self {l : List Char}
    (h1 : ∀ c, l.head? = some c → jsWs c = false)
    (h2 : ∀ c, l.getLast? = some c → jsWs c = false) : jsTrim l = l := by
  unfold jsTrim
  rw [dropWhile_eq_self_of_head _ _ h1]
  rw [dropWhile_eq_self_of_head _ _
    (fun c hc => h2 c (by rwa [List.head?_reverse] at hc))]
  exact List.reverse_reverse l

/-- The first character of a trimmed list is not whitespace. -/
theorem jsTrim_head (l : List Char) :
    ∀ c, (jsTrim l).head? = some c → jsWs c = false := by
  intro c hc
  unfold jsTrim at hc
  rw [List.head?_reverse] at hc
  have hne : (l.dropWhile jsWs).reverse.dropWhile jsWs ≠ [] := by
    intro h
    rw [h] at hc
    cases hc
  rw [getLast?_dropWhile _ _ hne, List.getLast?_reverse] at hc
  exact head?_dropWhile_false _ _ c hc

/-- The last character of a trimmed list is not whitespace. -/
theorem jsTrim_last (l : List Char) :
    ∀ c, (jsTrim l).getLast? = some c → jsWs c = false := by
  intro c hc
  unfold jsTrim at hc
  rw [List.getLast?_reverse] at hc
  exact head?_dropWhile_false _ _ c hc

/-- Trimming is idempotent. -/
theorem jsTrim_idem (l : List Char) : jsTrim (jsTrim l) = jsTrim l :=
  jsTrim_eq_self (jsTrim_head l) (jsTrim_last l)

/-- Literal replacement is the identity when the pattern's first
character never occurs. -/
theorem replaceAll_id {pat repl : List Char} {h0 : Char}
    (hpat : pat.head? = some h0) :
    ∀ (fuel : Nat) (l : List Char), (∀ c ∈ l, c ≠ h0) →
      replaceAll pat repl fuel l = l := by
  intro fuel
  induction fuel with
  | zero => intro l _; cases l <;> rfl
  | succ n ih =>
    intro l hl
    cases l with
    | nil => rfl
    | cons c rest =>
      have hc : c ≠ h0 := hl c (List.mem_cons_self _ _)
      show (if pat.isPrefixOf (c :: rest) && !pat.isEmpty then
          repl ++ replaceAll pat repl n (List.drop (pat.length - 1) rest)
        else c :: replaceAll pat repl n rest) = c :: rest
      rw [if_neg, ih rest (fun x hx => hl x (List.mem_cons_of_mem _ hx))]
      cases pat with
      | nil => cases hpat
      | cons p0 pt =>
        injection hpat with hp0
        intro hcond
        rw [Bool.and_eq_true] at hcond
        have hpre := hcond.1
        simp only [List.isPrefixOf, Bool.and_eq_true, beq_iff_eq] at hpre
        exact hc (hpre.1 ▸ hp0)

/-- Numeric-entity removal is the identity when no ampersand occurs. -/
theorem removeNumEnt_id :
    ∀ (fuel : Nat) (l : List Char), (∀ c ∈ l, c ≠ '&') →
      removeNumEnt fuel l = l := by
  intro fuel
  induction fuel with
  | zero => intro l _; cases l <;> rfl
  | succ n ih =>
    intro l hl
    cases l with
    | nil => rfl
    | cons c rest =>
      have hc : c ≠ '&' := hl c (List.mem_cons_self _ _)
      show (if c = '&' then _ else c :: removeNumEnt n rest) = c :: rest
      rw [if_neg hc, ih rest (fun x hx => hl x (List.mem_cons_of_mem _ hx))]

/-- `map` is the identity when the function fixes every element. -/
theorem map_id_on {α : Type} (f : α → α) :
    ∀ (l : List α), (∀ a ∈ l, f a = a) → l.map f = l := by
  intro l
  induction l with
  | nil => intro _; rfl
  | cons a t ih =>
    intro h
    rw [List.map_cons, h a (List.mem_cons_self _ _),
      ih (fun x hx => h x (List.mem_cons_of_mem _ hx))]

/-- Destructuring of the no-adjacent-whitespace predicate. -/
theorem noWsPair_tail {a : Char} {l : List Char} (h : noWsPair (a :: l) = true) :
    noWsPair l = true ∧ (∀ b t, l = b :: t → (jsWs a && jsWs b) = false) := by
  cases l with
  | nil => exact ⟨rfl, by intro b t ht; cases ht⟩
  | cons b t =>
    unfold noWsPair at h
    rw [Bool.and_eq_true] at h
    refine ⟨h.2, ?_⟩
    intro b' t' ht
    cases ht
    have h1 := h.1
    cases hab : (jsWs a && jsWs b)
    · rfl
    · rw [hab] at h1
      cases h1

/-- Whitespace collapsing is the identity on simple names without
adjacent spaces (for the `prevWs = true` state the head must not be
whitespace). -/
theorem collapseWsGo_id :
    ∀ (l : List Char), (∀ ch ∈ l, niceChar ch = true) → noWsPair l = true →
      ∀ prev : Bool, (prev = true → ∀ c rest, l = c :: rest → jsWs c = false) →
      collapseWsGo prev l = l := by
  intro l
  induction l with
  | nil => intro _ _ prev _; cases prev <;> rfl
  | cons c rest ih =>
    intro hch hpair prev hprev
    obtain ⟨hpt, hadj⟩ := noWsPair_tail hpair
    have hcht : ∀ ch ∈ rest, niceChar ch = true :=
      fun x hx => hch x (List.mem_cons_of_mem _ hx)
    by_cases hw : jsWs c = true
    · have hsp : c = ' ' := niceChar_ws (hch c (List.mem_cons_self _ _)) hw
      cases prev with
      | true =>
        have := hprev rfl c rest rfl
        rw [hw] at this
        cases this
      | false =>
        show (if jsWs c = true then ' ' :: collapseWsGo true rest
          else c :: collapseWsGo false rest) = c :: rest
        rw [if_pos hw]
        rw [ih hcht hpt true (by
          intro _ c2 t2 ht
          have := hadj c2 t2 ht
          rw [hw, Bool.true_and] at this
          exact this)]
        rw [hsp]
    · rw [Bool.not_eq_true] at hw
      cases prev with
      | true =>
        show (if jsWs c = true then collapseWsGo true rest
          else c :: collapseWsGo false rest) = c :: rest
        rw [if_neg (by rw [hw]; exact Bool.false_ne_true)]
        rw [ih hcht hpt false (by intro hh; cases hh)]
      | false =>
        show (if jsWs c = true then ' ' :: collapseWsGo true rest
          else c :: collapseWsGo false rest) = c :: rest
        rw [if_neg (by rw [hw]; exact Bool.false_ne_true)]
        rw [ih hcht hpt false (by intro hh; cases hh)]

/-- The comma split is the identity when no comma occurs. -/
theorem commaSplit_id {l : List Char} (h : ∀ c ∈ l, c ≠ ',') :
    commaSplit l = l := by
  unfold commaSplit
  rw [if_neg]
  intro hc
  exact h ',' (List.elem_iff.mp hc) rfl

/-- The care-of strip is the identity when the prefix rule does not
fire. -/
theorem stripCareOf_id {l : List Char} (h : careOfFires l = false) :
    stripCareOf l = l := by
  have h1 : tryCareOf "c/o".data l = none := by
    cases hx : tryCareOf "c/o".data l
    · rfl
    · unfold careOfFires at h
      rw [hx] at h
      simp at h
  have h2 : tryCareOf "care of".data l = none := by
    cases hx : tryCareOf "care of".data l
    · rfl
    · unfold careOfFires at h
      rw [hx] at h
      simp at h
  have h3 : tryCareOf "attn:".data l = none := by
    cases hx : tryCareOf "attn:".data l
    · rfl
    · unfold careOfFires at h
      rw [hx] at h
      simp at h
  have h4 : tryCareOf "attention:".data l = none := by
    cases hx : tryCareOf "attention:".data l
    · rfl
    · unfold careOfFires at h
      rw [hx] at h
      simp at h
  unfold stripCareOf
  rw [h1, h2, h3, h4]

/-- The leading-number strip is the identity on simple names (their
first character is never a digit). -/
theorem stripLeadNum_id {l : List Char} (hch : ∀ ch ∈ l, niceChar ch = true) :
    stripLeadNum l = l := by
  have htake : l.takeWhile isDigitC = [] := by
    apply takeWhile_eq_nil_of_head
    intro c hc
    have hmem : c ∈ l := by
      cases l with
      | nil => cases hc
      | cons a t =>
        injection hc with ha
        exact ha ▸ List.mem_cons_self _ _
    exact niceChar_not_digit (hch c hmem)
  unfold stripLeadNum
  rw [htake]
  simp

/-- The trailing-number strip is the identity on simple names (no digit
occurs at all). -/
theorem stripTrailNum_id {l : List Char} (hch : ∀ ch ∈ l, niceChar ch = true) :
    stripTrailNum l = l := by
  have htake : (l.reverse.dropWhile jsWs).takeWhile isDigitC = [] := by
    apply takeWhile_eq_nil_of_head
    intro c hc
    have hmem : c ∈ l := by
      have hd : c ∈ l.reverse.dropWhile jsWs := by
        cases hr : l.reverse.dropWhile jsWs with
        | nil => rw [hr] at hc; cases hc
        | cons a t =>
          rw [hr] at hc
          injection hc with ha
          exact ha ▸ List.mem_cons_self _ _
      exact List.mem_reverse.mp ((List.dropWhile_suffix jsWs).subset hd)
    exact niceChar_not_digit (hch c hmem)
  unfold stripTrailNum
  dsimp only
  rw [htake]
  simp

/-- The cleaning chain always ends trimmed. -/
theorem cleanPipeline_trimmed (X : List Char) :
    jsTrim (cleanPipeline X) = cleanPipeline X := by
  unfold cleanPipeline
  exact jsTrim_idem _

/-- The string a successful validation returns is exactly the cleaned
character list. -/
theorem validateName_data {l : List Char} {s : String}
    (h : validateName l = some s) : s.data = l := by
  unfold validateName at h
  split at h
  · cases h
  · split at h
    · cases h
    · split at h
      · cases h
      · split at h
        · cases h
        · injection h with he
          rw [← he]

set_option maxHeartbeats 1000000 in
/-- C3 counterexample: re-normalizing an already-cleaned name can clean
it further — "12a 34b Smith" cleans to "34b Smith", which re-cleans to
"Smith". -/
theorem normalize_not_idempotent :
    cleanCustomerName "12a 34b Smith" = some "34b Smith" ∧
    cleanCustomerName "34b Smith" = some "Smith" ∧
    some ("Smith" : String) ≠ some ("34b Smith" : String) :=
  ⟨rfl, rfl, by decide⟩

/-- C3 amended: the cleaner is idempotent on the simple cleaned names —
those made of ASCII letters and spaces with no two adjacent whitespace
characters and no care-of/attention prefix; re-normalizing such a
cleaned name returns it unchanged.  (In general idempotence fails, see
the counterexample.) -/
theorem cleanCustomerName_conditional_idempotent :
    ∀ (raw c : String), cleanCustomerName raw = some c →
      c.data.all niceChar = true →
      noWsPair c.data = true →
      careOfFires c.data = false →
      cleanCustomerName c = some c := by
  intro raw c h hall hpair hcare
  have hch : ∀ ch ∈ c.data, niceChar ch = true := List.all_eq_true.mp hall
  unfold cleanCustomerName at h
  split at h
  · cases h
  · have hdata : c.data = cleanPipeline raw.data := validateName_data h
    have htrim : jsTrim c.data = c.data := by
      rw [hdata]
      exact cleanPipeline_trimmed _
    have hamp : ∀ ch ∈ c.data, ch ≠ '&' := fun ch hm => niceChar_ne_amp (hch ch hm)
    have hs2 : runReplace "&amp;" "&".data c.data = c.data :=
      replaceAll_id (show "&amp;".data.head? = some '&' from rfl)
        c.data.length c.data hamp
    have hs3 : runReplace "&quot;" "\"".data c.data = c.data :=
      replaceAll_id (show "&quot;".data.head? = some '&' from rfl)
        c.data.length c.data hamp
    have hs4 : runReplace "&apos;" [apostC] c.data = c.data :=
      replaceAll_id (show "&apos;".data.head? = some '&' from rfl)
        c.data.length c.data hamp
    have hs5 : runReplace "&lt;" "<".data c.data = c.data :=
      replaceAll_id (show "&lt;".data.head? = some '&' from rfl)
        c.data.length c.data hamp
    have hs6 : runReplace "&gt;" ">".data c.data = c.data :=
      replaceAll_id (show "&gt;".data.head? = some '&' from rfl)
        c.data.length c.data hamp
    have hs7 : removeNumEnt c.data.length c.data = c.data :=
      removeNumEnt_id c.data.length c.data hamp
    have hs8 : mapCurlyD c.data = c.data :=
      map_id_on _ c.data (fun a ha => by simp [niceChar_not_curlyD (hch a ha)])
    have hs9 : mapCurlyS c.data = c.data :=
      map_id_on _ c.data (fun a ha => by simp [niceChar_not_curlyS (hch a ha)])
    have hs10 : c.data.filter (fun ch => !isCtrlC ch) = c.data :=
      List.filter_eq_self.mpr (fun a ha => by simp [niceChar_not_ctrl (hch a ha)])
    have hs11 : c.data.map (fun ch => if isUniSpaceC ch then ' ' else ch) = c.data :=
      map_id_on _ c.data (fun a ha => by simp [niceChar_not_unispace (hch a ha)])
    have hs12 : collapseWsGo false c.data = c.data :=
      collapseWsGo_id c.data hch hpair false (by intro hh; cases hh)
    have hs14 : commaSplit c.data = c.data :=
      commaSplit_id (fun ch hm => niceChar_ne_comma (hch ch hm))
    have hs15 : stripCareOf c.data = c.data := stripCareOf_id hcare
    have hs16 : stripLeadNum c.data = c.data := stripLeadNum_id hch
    have hs17 : stripTrailNum c.data = c.data := stripTrailNum_id hch
    have hpipe : cleanPipeline c.data = c.data := by
      simp only [cleanPipeline, htrim, hs2, hs3, hs4, hs5, hs6, hs7, hs8, hs9,
        hs10, hs11, hs12, hs14, hs15, hs16, hs17]
    have hval : validateName c.data = some c := by
      rw [← hdata] at h
      exact h
    have hcne : c ≠ "" := by
      intro he
      subst he
      exact absurd hval (by decide)
    unfold cleanCustomerName
    rw [if_neg hcne, hpipe]
    exact hval

/-- C3 witness: a simple two-word name is a fixed point of the
cleaner. -/
theorem cleanCustomerName_conditional_idempotent_witness :
    cleanCustomerName "John Smith" = some "John Smith" :=
  cleanCustomerName_conditional_idempotent "John Smith" "John Smith"
    (by rfl) (by decide) (by decide) (by decide)

/-! ## The line identifier (C4) -/

/-- Code-point bounds of an alphanumeric character. -/
theorem alnum_toNat {x : Char} (h : isAlnumC x = true) :
    (48 ≤ x.toNat ∧ x.toNat ≤ 57) ∨ (65 ≤ x.toNat ∧ x.toNat ≤ 90) ∨
    (97 ≤ x.toNat ∧ x.toNat ≤ 122) := by
  unfold isAlnumC isDigitC isAsciiLetterC at h
  simp only [Bool.or_eq_true, Bool.and_eq_true, decide_eq_true_eq] at h
  tauto

/-- An alphanumeric character is not the underscore. -/
theorem alnum_ne_underscore {x : Char} (h : isAlnumC x = true) : x ≠ '_' := by
  have hb := alnum_toNat h
  have h95 : ('_').toNat = 95 := rfl
  exact char_ne_of_toNat_ne (by omega)

/-- Lower-casing an alphanumeric character never yields the
underscore. -/
theorem toLowerC_ne_underscore {x : Char} (h : isAlnumC x = true) :
    toLowerC x ≠ '_' := by
  unfold toLowerC
  split
  all_goals first
    | decide
    | exact alnum_ne_underscore h

/-- The cleaned title component contains no underscore. -/
theorem cleanIdTitle_no_marker (t : String) : '_' ∉ (cleanIdTitle t).data := by
  intro hm
  unfold cleanIdTitle at hm
  obtain ⟨x, hx, hlx⟩ := List.mem_map.mp hm
  exact toLowerC_ne_underscore (List.mem_filter.mp hx).2 hlx

/-- The cleaned item-code component contains no underscore. -/
theorem cleanIdCode_no_marker (e : String) : '_' ∉ (cleanIdCode e).data := by
  intro hm
  unfold cleanIdCode at hm
  exact alnum_ne_underscore (List.mem_filter.mp hm).2 rfl

/-- A decimal digit character is never the underscore. -/
theorem digitC_ne_underscore : ∀ k, digitC k ≠ '_' := by
  intro k
  rcases k with _ | _ | _ | _ | _ | _ | _ | _ | _ | _ | n <;>
    first
      | decide
      | exact (by decide : ('0' : Char) ≠ '_')

/-- Every character printed for a natural number is a digit
character. -/
theorem natReprAux_chars :
    ∀ (fuel n : Nat) (ch : Char), ch ∈ natReprAux fuel n → ∃ k, ch = digitC k := by
  intro fuel
  induction fuel with
  | zero => intro n ch h; cases h
  | succ f ih =>
    intro n ch h
    unfold natReprAux at h
    split at h
    · rw [List.mem_singleton] at h
      exact ⟨n, h⟩
    · rcases List.mem_append.mp h with h1 | h2
      · exact ih _ ch h1
      · rw [List.mem_singleton] at h2
        exact ⟨n % 10, h2⟩

/-- The printed natural number contains no underscore. -/
theorem jsNatRepr_no_marker (n : Nat) : '_' ∉ (jsNatRepr n).data := by
  intro hm
  obtain ⟨k, hk⟩ := natReprAux_chars (n + 1) n '_' hm
  exact digitC_ne_underscore k hk.symm

/-- The printed integer contains no underscore. -/
theorem jsIntRepr_no_marker (q : Int) : '_' ∉ (jsIntRepr q).data := by
  intro hm
  cases q with
  | ofNat n => exact jsNatRepr_no_marker n hm
  | negSucc m =>
    unfold jsIntRepr at hm
    rw [String.data_append] at hm
    rcases List.mem_append.mp hm with h1 | h2
    · rw [List.mem_singleton] at h1
      cases h1
    · exact jsNatRepr_no_marker (m + 1) h2

/-- The printed amount contains no underscore. -/
theorem jsRatRepr_no_marker (z : ℚ) : '_' ∉ (jsRatRepr z).data := by
  intro hm
  unfold jsRatRepr at hm
  split at hm
  · exact jsIntRepr_no_marker z.num hm
  · rw [String.data_append, String.data_append] at hm
    rcases List.mem_append.mp hm with h1 | h2
    · rcases List.mem_append.mp h1 with h3 | h4
      · exact jsIntRepr_no_marker z.num h3
      · rw [List.mem_singleton] at h4
        cases h4
    · exact jsNatRepr_no_marker z.den h2

/-- Cancellation around the last marker: two decompositions of a string
by a final underscore-free segment agree componentwise. -/
theorem append_marker_cancel :
    ∀ (s1 s2 x1 x2 : List Char), '_' ∉ x1 → '_' ∉ x2 →
      s1 ++ '_' :: x1 = s2 ++ '_' :: x2 → s1 = s2 ∧ x1 = x2 := by
  intro s1
  induction s1 with
  | nil =>
    intro s2 x1 x2 h1 h2 he
    cases s2 with
    | nil =>
      rw [List.nil_append, List.nil_append] at he
      injection he with _ ht
      exact ⟨rfl, ht⟩
    | cons c s2' =>
      rw [List.nil_append, List.cons_append] at he
      injection he with hc ht
      exfalso
      apply h1
      rw [ht]
      exact List.mem_append_right _ (List.mem_cons_self _ _)
  | cons c s1' ih =>
    intro s2 x1 x2 h1 h2 he
    cases s2 with
    | nil =>
      rw [List.nil_append, List.cons_append] at he
      injection he with hc ht
      exfalso
      apply h2
      rw [← ht]
      exact List.mem_append_right _ (List.mem_cons_self _ _)
    | cons d s2' =>
      rw [List.cons_append, List.cons_append] at he
      injection he with hcd ht
      obtain ⟨ha, hb⟩ := ih s2' x1 x2 h1 h2 ht
      exact ⟨by rw [hcd, ha], hb⟩

/-- Character-list form of appending a marker and a final segment. -/
theorem data_marker_append (X d : String) :
    (X ++ "_" ++ d).data = X.data ++ '_' :: d.data := by
  rw [String.data_append, String.data_append, List.append_assoc]
  rfl

/-- C4 counterexample: two calls whose titles differ only by a
non-alphanumeric character yield the same identifier. -/
theorem line_identifier_counterexample :
    createLineIdentifier "o" "ab" none 1 1 = createLineIdentifier "o" "a-b" none 1 1 ∧
    ("ab" : String) ≠ "a-b" :=
  ⟨rfl, by decide⟩

/-- C4 amended: the identifier is deterministic in its five inputs, and
two calls collide exactly when the order keys, the normalized titles,
the normalized item codes, and the rendered quantities and totals all
agree — so inputs differing only in characters erased by normalization
(or title case) may share an identifier. -/
theorem line_identifier_amended :
    (∀ o t e q z, createLineIdentifier o t e q z = createLineIdentifier o t e q z) ∧
    (∀ o1 t1 e1 q1 z1 o2 t2 e2 q2 z2,
      createLineIdentifier o1 t1 e1 q1 z1 = createLineIdentifier o2 t2 e2 q2 z2 ↔
        (o1 = o2 ∧ cleanIdTitle t1 = cleanIdTitle t2 ∧
         cleanIdCode (e1.getD "") = cleanIdCode (e2.getD "") ∧
         jsIntRepr q1 = jsIntRepr q2 ∧ jsRatRepr z1 = jsRatRepr z2)) := by
  constructor
  · intro o t e q z
    rfl
  · intro o1 t1 e1 q1 z1 o2 t2 e2 q2 z2
    constructor
    · intro h
      have hd := congrArg String.data h
      unfold createLineIdentifier at hd
      rw [data_marker_append
            (o1 ++ "_" ++ cleanIdTitle t1 ++ "_" ++ cleanIdCode (e1.getD "") ++
              "_" ++ jsIntRepr q1) (jsRatRepr z1),
          data_marker_append
            (o2 ++ "_" ++ cleanIdTitle t2 ++ "_" ++ cleanIdCode (e2.getD "") ++
              "_" ++ jsIntRepr q2) (jsRatRepr z2)] at hd
      obtain ⟨hd1, hz⟩ := append_marker_cancel _ _ _ _
        (jsRatRepr_no_marker z1) (jsRatRepr_no_marker z2) hd
      rw [data_marker_append
            (o1 ++ "_" ++ cleanIdTitle t1 ++ "_" ++ cleanIdCode (e1.getD ""))
            (jsIntRepr q1),
          data_marker_append
            (o2 ++ "_" ++ cleanIdTitle t2 ++ "_" ++ cleanIdCode (e2.getD ""))
            (jsIntRepr q2)] at hd1
      obtain ⟨hd2, hq⟩ := append_marker_cancel _ _ _ _
        (jsIntRepr_no_marker q1) (jsIntRepr_no_marker q2) hd1
      rw [data_marker_append (o1 ++ "_" ++ cleanIdTitle t1) (cleanIdCode (e1.getD "")),
          data_marker_append (o2 ++ "_" ++ cleanIdTitle t2) (cleanIdCode (e2.getD ""))] at hd2
      obtain ⟨hd3, hb⟩ := append_marker_cancel _ _ _ _
        (cleanIdCode_no_marker (e1.getD "")) (cleanIdCode_no_marker (e2.getD "")) hd2
      rw [data_marker_append o1 (cleanIdTitle t1),
          data_marker_append o2 (cleanIdTitle t2)] at hd3
      obtain ⟨hd4, ha⟩ := append_marker_cancel _ _ _ _
        (cleanIdTitle_no_marker t1) (cleanIdTitle_no_marker t2) hd3
      exact ⟨String.ext hd4, String.ext ha, String.ext hb,
        String.ext hq, String.ext hz⟩
    · rintro ⟨h1, h2, h3, h4, h5⟩
      unfold createLineIdentifier
      rw [h1, h2, h3, h4, h5]

/-- C4 witness: the collision characterization at concrete inputs — a
punctuation-only title difference collides, and the characterization
confirms it. -/
theorem line_identifier_amended_witness :
    createLineIdentifier "#1" "Book A" (some "SKU-1") 2 3 =
      createLineIdentifier "#1" "book a!" (some "SKU1") 2 3 :=
  (line_identifier_amended.2 "#1" "Book A" (some "SKU-1") 2 3
      "#1" "book a!" (some "SKU1") 2 3).mpr
    ⟨rfl, by decide, by decide, rfl, rfl⟩

end StockistModel
